import Mathlib

/-!
# Verification of the Biopython SFF binary codec and offset-index subsystem

A shallow embedding of `Bio/SeqIO/SffIO.py` and the relevant parts of
`Bio/SeqIO/_index.py`.  Files are modelled as lists of natural numbers
(byte values); Python functions that can raise become `Option`-valued
functions; `struct` pack/unpack is modelled by explicit big-endian
byte arithmetic.
-/

namespace Biopython

/-! ## Byte-level primitives (struct pack/unpack, big endian) -/

/-- Big-endian 2-byte encoding, as produced by `struct.pack(">H", v)`. -/
def u16be (v : Nat) : List Nat := [v / 256 % 256, v % 256]

/-- Big-endian 4-byte encoding, as produced by `struct.pack(">I", v)` / `">L"`. -/
def u32be (v : Nat) : List Nat :=
  [v / 16777216 % 256, v / 65536 % 256, v / 256 % 256, v % 256]

/-- Big-endian 8-byte encoding, as produced by `struct.pack(">Q", v)`. -/
def u64be (v : Nat) : List Nat :=
  [v / 72057594037927936 % 256, v / 281474976710656 % 256,
   v / 1099511627776 % 256, v / 4294967296 % 256,
   v / 16777216 % 256, v / 65536 % 256, v / 256 % 256, v % 256]

/-- Read two bytes as a big-endian u16 (`struct.unpack(">H", ...)`);
fails (like `struct.error`) if the stream is too short. -/
def readU16 : List Nat → Option (Nat × List Nat)
  | b0 :: b1 :: r => some (b0 * 256 + b1, r)
  | _ => none

/-- Read four bytes as a big-endian u32 (`struct.unpack(">I", ...)` / `">L"`). -/
def readU32 : List Nat → Option (Nat × List Nat)
  | b0 :: b1 :: b2 :: b3 :: r =>
      some (b0 * 16777216 + b1 * 65536 + b2 * 256 + b3, r)
  | _ => none

/-- Read eight bytes as a big-endian u64 (`struct.unpack(">Q", ...)`). -/
def readU64 : List Nat → Option (Nat × List Nat)
  | b0 :: b1 :: b2 :: b3 :: b4 :: b5 :: b6 :: b7 :: r =>
      some (b0 * 72057594037927936 + b1 * 281474976710656 +
            b2 * 1099511627776 + b3 * 4294967296 +
            b4 * 16777216 + b5 * 65536 + b6 * 256 + b7, r)
  | _ => none

/-- Read exactly `n` raw bytes (`handle.read(n)` followed by a length-checking
unpack); fails if the stream holds fewer than `n` bytes. -/
def readBytes (n : Nat) (s : List Nat) : Option (List Nat × List Nat) :=
  if n ≤ s.length then some (s.take n, s.drop n) else none

/-- Read `n` padding bytes and require them all to be zero
(`if chr(0)*padding != handle.read(padding): raise ValueError`). -/
def checkZeros (n : Nat) (s : List Nat) : Option (List Nat) :=
  match readBytes n s with
  | none => none
  | some (p, s') => if p = List.replicate n 0 then some s' else none

/-- Pack a list of values as consecutive big-endian u16s
(`struct.pack(">%iH" % n, *values)`). -/
def packU16s : List Nat → List Nat
  | [] => []
  | v :: vs => u16be v ++ packU16s vs

/-- Unpack `n` consecutive big-endian u16s (`struct.unpack(">%iH" % n, ...)`). -/
def readU16s : Nat → List Nat → Option (List Nat × List Nat)
  | 0, s => some ([], s)
  | n + 1, s =>
    match readU16 s with
    | none => none
    | some (v, s') =>
      match readU16s n s' with
      | none => none
      | some (vs, s'') => some (v :: vs, s'')

/-- ASCII upper-casing of one byte, as Python's `str.upper` acts on bytes. -/
def upperByte (b : Nat) : Nat := if 97 ≤ b ∧ b ≤ 122 then b - 32 else b

/-- ASCII lower-casing of one byte, as Python's `str.lower` acts on bytes. -/
def lowerByte (b : Nat) : Nat := if 65 ≤ b ∧ b ≤ 90 then b + 32 else b

/-! ## Data model -/

/-- The tuple returned by `_sff_file_header` (SffIO.py lines 24-80). -/
structure SFFHeader where
  headerLength : Nat
  indexOffset : Nat
  indexLength : Nat
  numberOfReads : Nat
  numberOfFlowsPerRead : Nat
  flowChars : List Nat
  keySequence : List Nat
deriving Repr, DecidableEq

/-- The per-read data that `_sff_read_seq_record` stores in the `annotations`
dictionary of the returned `SeqRecord` (untrimmed decode only). -/
structure ReadAnnots where
  flowValues : List Nat
  flowIndex : List Nat
  flowChars : List Nat
  flowKey : List Nat
  clipQualLeft : Nat
  clipQualRight : Nat
  clipAdapterLeft : Nat
  clipAdapterRight : Nat
deriving Repr, DecidableEq

/-- The parts of a Biopython `SeqRecord` used by the SFF codec: id/name,
sequence bytes (with case), the `phred_quality` letter annotation, and the
SFF annotation dictionary (`none` models the empty dictionary produced by a
trimmed decode, which `SffWriter.write_record` rejects with `KeyError`). -/
structure SeqRecord where
  id : List Nat
  seq : List Nat
  quals : List Nat
  annots : Option ReadAnnots
deriving Repr, DecidableEq

/-- `if clip_qual_left: clip_qual_left -= 1` — the decode-side "python
counting" adjustment, applied in the source to the two *left* clip fields
(SffIO.py lines 238-239). -/
def decodeClipLeft (v : Nat) : Nat := if v ≠ 0 then v - 1 else v

/-- `if clip_qual_left: clip_qual_left += 1` — the encode-side adjustment,
applied in the source to the two *left* clip fields
(SffIO.py lines 551, 554). -/
def encodeClipLeft (v : Nat) : Nat := if v ≠ 0 then v + 1 else v

/-! ## `_sff_file_header` -/

/-- The fixed 31-byte file header, `struct.unpack('>I4BQIIHHHB', handle.read(31))`
(SffIO.py lines 50-54). -/
structure FileHeaderFixed where
  magicNumber : Nat
  version : List Nat
  indexOffset : Nat
  indexLength : Nat
  numberOfReads : Nat
  headerLength : Nat
  keyLength : Nat
  numberOfFlowsPerRead : Nat
  flowgramFormat : List Nat
deriving Repr, DecidableEq

/-- Unpack the fixed part of the file header (`'>I4BQIIHHHB'`). -/
def readFileHeaderFixed (s : List Nat) : Option (FileHeaderFixed × List Nat) := do
  let (magic_number, s) ← readU32 s
  let (version, s) ← readBytes 4 s
  let (index_offset, s) ← readU64 s
  let (index_length, s) ← readU32 s
  let (number_of_reads, s) ← readU32 s
  let (header_length, s) ← readU16 s
  let (key_length, s) ← readU16 s
  let (number_of_flows_per_read, s) ← readU16 s
  let (flowgram_format, s) ← readBytes 1 s
  some ({ magicNumber := magic_number, version := version,
          indexOffset := index_offset, indexLength := index_length,
          numberOfReads := number_of_reads, headerLength := header_length,
          keyLength := key_length,
          numberOfFlowsPerRead := number_of_flows_per_read,
          flowgramFormat := flowgram_format }, s)

/-- `_sff_file_header(handle)` (SffIO.py lines 24-80).

Short `handle.read(n)` calls return fewer bytes in Python and make a later
unpack or comparison fail, so a truncated stream is modelled directly as a
parse failure.  The `assert 0 <= padding < 8` of the source is the combined
bound check below. -/
def sff_file_header (s : List Nat) : Option (SFFHeader × List Nat) :=
  match readFileHeaderFixed s with
  | none => none
  | some (h, s) =>
    if h.magicNumber ≠ 779314790 then none else
    if h.version ≠ [0, 0, 0, 1] then none else
    if h.flowgramFormat ≠ [1] then none else
    if ¬(h.indexOffset = 0 ↔ h.indexLength = 0) then none else
    match readBytes h.numberOfFlowsPerRead s with
    | none => none
    | some (flow_chars, s) =>
      match readBytes h.keyLength s with
      | none => none
      | some (key_sequence, s) =>
        if h.headerLength % 8 ≠ 0 then none else
        if ¬(31 + h.numberOfFlowsPerRead + h.keyLength ≤ h.headerLength ∧
             h.headerLength < 39 + h.numberOfFlowsPerRead + h.keyLength) then
          none
        else
          match checkZeros (h.headerLength - h.numberOfFlowsPerRead -
                            h.keyLength - 31) s with
          | none => none
          | some s =>
            some ({ headerLength := h.headerLength,
                    indexOffset := h.indexOffset,
                    indexLength := h.indexLength,
                    numberOfReads := h.numberOfReads,
                    numberOfFlowsPerRead := h.numberOfFlowsPerRead,
                    flowChars := flow_chars, keySequence := key_sequence }, s)

/-! ## `_sff_read_seq_record` and `SffIterator` -/

/-- The fixed 16-byte read header, `struct.unpack('>2HI4H', handle.read(16))`
(SffIO.py lines 230-237; `struct.calcsize('>2HI4H') = 16`). -/
structure ReadHeaderFixed where
  readHeaderLength : Nat
  nameLength : Nat
  seqLen : Nat
  clipQualLeft0 : Nat
  clipQualRight : Nat
  clipAdapterLeft0 : Nat
  clipAdapterRight : Nat
deriving Repr, DecidableEq

/-- Unpack the fixed part of a read header (`'>2HI4H'`). -/
def readReadHeaderFixed (s : List Nat) : Option (ReadHeaderFixed × List Nat) := do
  let (read_header_length, s) ← readU16 s
  let (name_length, s) ← readU16 s
  let (seq_len, s) ← readU32 s
  let (clip_qual_left0, s) ← readU16 s
  let (clip_qual_right, s) ← readU16 s
  let (clip_adapter_left0, s) ← readU16 s
  let (clip_adapter_right, s) ← readU16 s
  some ({ readHeaderLength := read_header_length, nameLength := name_length,
          seqLen := seq_len, clipQualLeft0 := clip_qual_left0,
          clipQualRight := clip_qual_right,
          clipAdapterLeft0 := clip_adapter_left0,
          clipAdapterRight := clip_adapter_right }, s)

/-- The variable-length payload of one read: flowgram values, flowgram index,
bases and qualities, then the trailing zero padding to a multiple of 8
(SffIO.py lines 249-262). -/
structure ReadPayload where
  flowValues : List Nat
  flowIndex : List Nat
  bases : List Nat
  qualVals : List Nat
deriving Repr, DecidableEq

/-- Read the payload of one read record. -/
def readReadPayload (number_of_flows_per_read seq_len : Nat) (s : List Nat) :
    Option (ReadPayload × List Nat) := do
  let (flow_values, s) ← readU16s number_of_flows_per_read s
  let (flow_index, s) ← readBytes seq_len s
  let (bases, s) ← readBytes seq_len s
  let (qualVals, s) ← readBytes seq_len s
  let s ← checkZeros ((8 - (2 * number_of_flows_per_read + 3 * seq_len) % 8) % 8) s
  some ({ flowValues := flow_values, flowIndex := flow_index,
          bases := bases, qualVals := qualVals }, s)

/-- Assemble the `SeqRecord` built at SffIO.py lines 263-293: trimmed decode
slices bases/qualities to `[clip_qual_left, clip_qual_right)` and upper-cases;
untrimmed decode mixes case around the quality-clip window and keeps all the
flow and clip values as annotations.  The clip arguments received here are the
already-adjusted (0-based left) values. -/
def mkDecodedRecord (flow_chars key_sequence : List Nat) (trim : Bool)
    (name : List Nat)
    (clip_qual_left clip_qual_right clip_adapter_left clip_adapter_right : Nat)
    (p : ReadPayload) : SeqRecord :=
  if trim then
    { id := name,
      seq := ((p.bases.drop clip_qual_left).take
                (clip_qual_right - clip_qual_left)).map upperByte,
      quals := (p.qualVals.drop clip_qual_left).take
                 (clip_qual_right - clip_qual_left),
      annots := none }
  else
    { id := name,
      seq := (p.bases.take clip_qual_left).map lowerByte ++
             ((p.bases.drop clip_qual_left).take
                (clip_qual_right - clip_qual_left)).map upperByte ++
             (p.bases.drop clip_qual_right).map lowerByte,
      quals := p.qualVals,
      annots := some { flowValues := p.flowValues, flowIndex := p.flowIndex,
                       flowChars := flow_chars, flowKey := key_sequence,
                       clipQualLeft := clip_qual_left,
                       clipQualRight := clip_qual_right,
                       clipAdapterLeft := clip_adapter_left,
                       clipAdapterRight := clip_adapter_right } }

/-- `_sff_read_seq_record(handle, ..., trim)` (SffIO.py lines 217-293).

The source applies the left-clip `-1` adjustment right after unpacking, before
validating `read_header_length`; the adjustment is pure, so applying it at
record-assembly time below is equivalent.  A negative name padding
(`read_header_length < 16 + name_length`) makes the source compare
`handle.read(negative)` — the remaining stream — against an empty expected
string, which fails on any stream that still holds data; it is modelled as a
parse failure. -/
def sff_read_seq_record (number_of_flows_per_read : Nat)
    (flow_chars key_sequence : List Nat) (trim : Bool) (s : List Nat) :
    Option (SeqRecord × List Nat) :=
  match readReadHeaderFixed s with
  | none => none
  | some (h, s) =>
    if h.readHeaderLength < 10 ∨ h.readHeaderLength % 8 ≠ 0 then none else
    match readBytes h.nameLength s with
    | none => none
    | some (name, s) =>
      if h.readHeaderLength < 16 + h.nameLength then none else
      match checkZeros (h.readHeaderLength - 16 - h.nameLength) s with
      | none => none
      | some s =>
        match readReadPayload number_of_flows_per_read h.seqLen s with
        | none => none
        | some (p, s) =>
          some (mkDecodedRecord flow_chars key_sequence trim name
                  (decodeClipLeft h.clipQualLeft0) h.clipQualRight
                  (decodeClipLeft h.clipAdapterLeft0) h.clipAdapterRight p, s)

/-- The per-read loop of `SffIterator` (SffIO.py lines 339-345). -/
def iterReads (number_of_flows_per_read : Nat) (flow_chars key_sequence : List Nat)
    (trim : Bool) : Nat → List Nat → Option (List SeqRecord × List Nat)
  | 0, s => some ([], s)
  | n + 1, s =>
    match sff_read_seq_record number_of_flows_per_read flow_chars key_sequence
            trim s with
    | none => none
    | some (r, s') =>
      match iterReads number_of_flows_per_read flow_chars key_sequence trim
              n s' with
      | none => none
      | some (rs, s'') => some (r :: rs, s'')

/-- `SffIterator(handle, trim)` (SffIO.py lines 296-345), collecting the
generated `SeqRecord`s into a list (a decode error anywhere yields `none`). -/
def SffIterator (trim : Bool) (file : List Nat) : Option (List SeqRecord) :=
  match sff_file_header file with
  | none => none
  | some (h, s) =>
    match iterReads h.numberOfFlowsPerRead h.flowChars h.keySequence trim
            h.numberOfReads s with
    | none => none
    | some (rs, _) => some rs

/-! ## `_sff_do_slow_index` -/

/-- The per-read loop of `_sff_do_slow_index` (SffIO.py lines 105-133),
threading the current byte position (`handle.tell()`) and returning the final
position along with the yielded (name, record offset) pairs. -/
def slowIndexAux (number_of_flows_per_read : Nat) :
    Nat → Nat → List Nat → Option (List (List Nat × Nat) × Nat)
  | 0, pos, _ => some ([], pos)
  | n + 1, pos, s =>
    match readReadHeaderFixed s with
    | none => none
    | some (h, s) =>
      if h.readHeaderLength < 10 ∨ h.readHeaderLength % 8 ≠ 0 then none else
      match readBytes h.nameLength s with
      | none => none
      | some (name, s) =>
        if h.readHeaderLength < 16 + h.nameLength then none else
        match checkZeros (h.readHeaderLength - 16 - h.nameLength) s with
        | none => none
        | some s =>
          -- assert record_offset + read_header_length == handle.tell() holds
          -- by construction: exactly read_header_length bytes were consumed
          let size := 2 * number_of_flows_per_read + 3 * h.seqLen
          -- handle.seek(size, 1) then check the trailing zero padding
          match checkZeros ((8 - size % 8) % 8) (s.drop size) with
          | none => none
          | some s =>
            match slowIndexAux number_of_flows_per_read n
                (pos + h.readHeaderLength + size + (8 - size % 8) % 8) s with
            | none => none
            | some (rest, posEnd) => some ((name, pos) :: rest, posEnd)

/-- `_sff_do_slow_index(handle)` (SffIO.py lines 83-135). -/
def sff_do_slow_index (file : List Nat) : Option (List (List Nat × Nat)) :=
  match sff_file_header file with
  | none => none
  | some (h, s) =>
    match slowIndexAux h.numberOfFlowsPerRead h.numberOfReads h.headerLength
            s with
    | none => none
    | some (entries, posEnd) =>
      if posEnd % 8 ≠ 0 then none else some entries

/-! ## `_sff_find_roche_index` and `_sff_read_roche_index` -/

/-- The tuple returned by `_sff_find_roche_index` (SffIO.py lines 137-174). -/
structure RocheIndexInfo where
  numberOfReads : Nat
  headerLength : Nat
  indexOffset : Nat
  indexLength : Nat
  xmlOffset : Nat
  xmlSize : Nat
  readIndexOffset : Nat
  readIndexSize : Nat
deriving Repr, DecidableEq

/-- The index block header, `struct.unpack('>I4BLL', handle.read(16))`. -/
structure IndexHeaderFixed where
  magicNumber : Nat
  version : List Nat
  xmlSize : Nat
  dataSize : Nat
deriving Repr, DecidableEq

/-- Unpack the fixed part of the Roche index header (`'>I4BLL'`). -/
def readIndexHeaderFixed (s : List Nat) : Option (IndexHeaderFixed × List Nat) := do
  let (magic_number, s) ← readU32 s
  let (version, s) ← readBytes 4 s
  let (xml_size, s) ← readU32 s
  let (data_size, s) ← readU32 s
  some ({ magicNumber := magic_number, version := version,
          xmlSize := xml_size, dataSize := data_size }, s)

/-- `_sff_find_roche_index(handle)` (SffIO.py lines 137-174);
`struct.calcsize('>I4BLL') = 16`. -/
def sff_find_roche_index (file : List Nat) : Option RocheIndexInfo :=
  match sff_file_header file with
  | none => none
  | some (h, _) =>
    if h.indexOffset = 0 then none else
    -- handle.seek(index_offset)
    match readIndexHeaderFixed (file.drop h.indexOffset) with
    | none => none
    | some (ih, _) =>
      if ih.magicNumber ≠ 778921588 then none else
      if ih.version ≠ [49, 46, 48, 48] then none else
      if h.indexLength ≠ 16 + ih.xmlSize + ih.dataSize then none else
      if ih.dataSize ≠ 20 * h.numberOfReads then none else
      some { numberOfReads := h.numberOfReads, headerLength := h.headerLength,
             indexOffset := h.indexOffset, indexLength := h.indexLength,
             xmlOffset := h.indexOffset + 16, xmlSize := ih.xmlSize,
             readIndexOffset := h.indexOffset + 16 + ih.xmlSize,
             readIndexSize := ih.dataSize }

/-- `offset = off0 + 255*off1 + 65025*off2 + 16581375*off3`, the base-255
positional decoding of `_sff_read_roche_index` (SffIO.py line 212), taking
the four digit bytes in file order (most significant first). -/
def decode_offset (off3 off2 off1 off0 : Nat) : Nat :=
  off0 + 255 * off1 + 65025 * off2 + 16581375 * off3

/-- The per-entry loop of `_sff_read_roche_index` (SffIO.py lines 202-215):
each 20-byte entry is `name:[u8;14]`, a NUL, four offset digit bytes, and a
0xFF sentinel; the decoded offset must lie between `header_length` and
`index_offset` (the source's `assert`). -/
def rocheEntries (header_length index_offset : Nat) :
    Nat → List Nat → Option (List (List Nat × Nat))
  | 0, _ => some []
  | n + 1, s =>
    match readBytes 20 s with
    | none => none
    | some (data, s') =>
      match data.drop 14 with
      | [x0, off3, off2, off1, off0, x255] =>
        if x0 ≠ 0 then none else
        if x255 ≠ 255 then none else
        if ¬(header_length ≤ decode_offset off3 off2 off1 off0 ∧
             decode_offset off3 off2 off1 off0 ≤ index_offset) then none else
        match rocheEntries header_length index_offset n s' with
        | none => none
        | some rest =>
          some ((data.take 14, decode_offset off3 off2 off1 off0) :: rest)
      | _ => none

/-- `_sff_read_roche_index(handle)` (SffIO.py lines 188-215). -/
def sff_read_roche_index (file : List Nat) : Option (List (List Nat × Nat)) :=
  match sff_find_roche_index file with
  | none => none
  | some info =>
    rocheEntries info.headerLength info.indexOffset info.numberOfReads
      (file.drop info.readIndexOffset)

/-! ## `SffWriter` -/

/-- The base-255 digit computation of `SffWriter._write_index`
(SffIO.py lines 458-468): successive remainders by 255, 65025 and 16581375,
returning the four digit bytes in the order they are written to the file
(`off3//16581375, off2//65025, off1//255, off0`). -/
def encode_offset (offset : Nat) : Nat × Nat × Nat × Nat :=
  let off0 := offset % 255
  let rem1 := offset - off0
  let off1 := rem1 % 65025
  let rem2 := rem1 - off1
  let off2 := rem2 % 16581375
  let off3 := rem2 - off2
  (off3 / 16581375, off2 / 65025, off1 / 255, off0)

/-- `SffWriter.write_header` (SffIO.py lines 486-520): the header bytes,
zero-padded to a multiple of 8; `none` models `struct.error` on out-of-range
field values.  `struct.calcsize('>I4BQIIHHHB%is%is') = 31 + flows + keys`. -/
def write_header (index_start index_length number_of_reads : Nat)
    (flow_chars key_sequence : List Nat) : Option (List Nat) :=
  let key_length := key_sequence.length
  let base_size := 31 + flow_chars.length + key_length
  let padding := (8 - base_size % 8) % 8
  let header_length := base_size + padding
  if index_start < 18446744073709551616 ∧ index_length < 4294967296 ∧
     number_of_reads < 4294967296 ∧ header_length < 65536 ∧
     key_length < 65536 ∧ flow_chars.length < 65536 then
    some (u32be 779314790 ++ [0, 0, 0, 1] ++ u64be index_start ++
          u32be index_length ++ u32be number_of_reads ++ u16be header_length ++
          u16be key_length ++ u16be flow_chars.length ++ [1] ++
          flow_chars ++ key_sequence ++ List.replicate padding 0)
  else none

/-- `SffWriter.write_record` (SffIO.py lines 522-610), minus the index-capture
side effect (modelled in `writeRecordsAux`): the bytes written for one record.
`none` models the `ValueError`s for missing qualities/flow/clip data or
inconsistent flow data, and `struct.error` for out-of-range field values.
`struct.calcsize('>2HI4H%is') = 16 + name_len`. -/
def write_record (flow_chars key_sequence : List Nat) (r : SeqRecord) :
    Option (List Nat) :=
  match r.annots with
  | none => none
  | some an =>
    let name := r.id
    let name_len := name.length
    let seqU := r.seq.map upperByte    -- str(record.seq).upper()
    let seq_len := seqU.length
    let quals := r.quals
    let clip_qual_left := encodeClipLeft an.clipQualLeft
    let clip_qual_right := an.clipQualRight
    let clip_adapter_left := encodeClipLeft an.clipAdapterLeft
    let clip_adapter_right := an.clipAdapterRight
    let base_size := 16 + name_len
    let padding := (8 - base_size % 8) % 8
    let read_header_length := base_size + padding
    if an.flowKey = key_sequence ∧ an.flowChars = flow_chars ∧
       an.flowValues.length = flow_chars.length ∧
       (∀ v ∈ an.flowValues, v < 65536) ∧
       an.flowIndex.length = seq_len ∧ (∀ v ∈ an.flowIndex, v < 256) ∧
       quals.length = seq_len ∧ (∀ v ∈ quals, v < 256) ∧
       read_header_length < 65536 ∧ name_len < 65536 ∧
       seq_len < 4294967296 ∧
       clip_qual_left < 65536 ∧ clip_qual_right < 65536 ∧
       clip_adapter_left < 65536 ∧ clip_adapter_right < 65536 then
      some (u16be read_header_length ++ u16be name_len ++ u32be seq_len ++
            u16be clip_qual_left ++ u16be clip_qual_right ++
            u16be clip_adapter_left ++ u16be clip_adapter_right ++
            name ++ List.replicate padding 0 ++
            packU16s an.flowValues ++ an.flowIndex ++ seqU ++ quals ++
            List.replicate ((8 - (2 * flow_chars.length + 3 * seq_len) % 8) % 8) 0)
    else none

/-- Comparison used by Python's `list.sort()` on `(name, offset)` tuples:
lexicographic byte-string order on the name, then numeric order on the
offset. -/
def listLe : List Nat → List Nat → Bool
  | [], _ => true
  | _ :: _, [] => false
  | a :: as, b :: bs => if a < b then true else if b < a then false else listLe as bs

/-- Python tuple comparison for `(name, offset)` index entries. -/
def entryLe (e1 e2 : List Nat × Nat) : Bool :=
  if e1.1 = e2.1 then e1.2 ≤ e2.2 else listLe e1.1 e2.1

/-- `entryLe` as a relation. -/
def entryR (e1 e2 : List Nat × Nat) : Prop := entryLe e1 e2 = true

instance : DecidableRel entryR := fun e1 e2 =>
  inferInstanceAs (Decidable (entryLe e1 e2 = true))

/-- `self._index.sort()` (SffIO.py lines 435, 454): sort the captured
(name, offset) entries in Python tuple order (insertion sort; the order is
total and antisymmetric, so any comparison sort produces this list). -/
def sortEntries (l : List (List Nat × Nat)) : List (List Nat × Nat) :=
  l.insertionSort entryR

/-- One 20-byte index entry as written by `SffWriter._write_index`
(`struct.pack('>14s6B', name, 0, d3, d2, d1, d0, 255)`, lines 467-469);
`'14s'` NUL-pads or truncates the name to exactly 14 bytes. -/
def entryBytes (e : List Nat × Nat) : List Nat :=
  (e.1 ++ List.replicate 14 0).take 14 ++
  [0, (encode_offset e.2).1, (encode_offset e.2).2.1,
   (encode_offset e.2).2.2.1, (encode_offset e.2).2.2.2, 255]

/-- `SffWriter._write_index` (SffIO.py lines 432-484): the bytes appended
after the last read record — index header (`struct.calcsize('>I4BLL') = 16`),
XML, sorted 20-byte entries, zero padding to a multiple of 8 — together with
the `index_length` recorded in the file header (which excludes the padding).
`none` models `struct.error` on out-of-range values. -/
def write_index_block (entries : List (List Nat × Nat)) (xml : List Nat) :
    Option (List Nat × Nat) :=
  let sorted := sortEntries entries
  let xml_len := xml.length
  let index_len := entries.length * 20
  let index_length := 16 + xml_len + index_len
  let padding := (8 - index_length % 8) % 8
  if xml_len < 4294967296 ∧ index_len < 4294967296 ∧
     (∀ e ∈ entries, (encode_offset e.2).1 < 256 ∧
        (encode_offset e.2).2.1 < 256 ∧ (encode_offset e.2).2.2.1 < 256 ∧
        (encode_offset e.2).2.2.2 < 256) then
    some (u32be 778921588 ++ [49, 46, 48, 48] ++ u32be xml_len ++
          u32be index_len ++ xml ++ (sorted.map entryBytes).flatten ++
          List.replicate padding 0, index_length)
  else none

/-- The index-capture step at the top of `SffWriter.write_record`
(SffIO.py lines 559-567): once disabled (`none`) the index stays disabled;
a name that is not exactly 14 bytes long disables it, otherwise the
(name, current offset) pair is appended. -/
def idxUpdate (r : SeqRecord) (pos : Nat) :
    Option (List (List Nat × Nat)) → Option (List (List Nat × Nat))
  | none => none
  | some es => if r.id.length = 14 then some (es ++ [(r.id, pos)]) else none

/-- The record-writing loop of `SffWriter.write_file` (SffIO.py lines 414-417):
`pos` is `handle.tell()` at the start of each record. -/
def writeRecordsAux (flow_chars key_sequence : List Nat) :
    Nat → Option (List (List Nat × Nat)) → List SeqRecord →
    Option (List Nat × Option (List (List Nat × Nat)))
  | _, idx, [] => some ([], idx)
  | pos, idx, r :: rs =>
    match write_record flow_chars key_sequence r with
    | none => none
    | some bs =>
      match writeRecordsAux flow_chars key_sequence (pos + bs.length)
              (idxUpdate r pos idx) rs with
      | none => none
      | some (rest, idxF) => some (bs ++ rest, idxF)

/-- `SffWriter.write_file(records)` (SffIO.py lines 375-430) on a list of
records, with `xml` the writer's XML argument and `withIndex` its `index`
argument: writes the header (first with zeroed index fields), every record,
then — when the index survived — the index block, and patches the header with
the final index offset/length (`_write_index`, lines 479-484).  The result is
the final byte content of the file.  The header patch cannot change the header
length, so the final file is `header1 ++ body ++ iblock`. -/
def write_file (withIndex : Bool) (xml : List Nat) (records : List SeqRecord) :
    Option (List Nat) :=
  match records with
  | [] => none   -- "Need at least one record for SFF output"
  | r0 :: _ =>
    match r0.annots with
    | none => none   -- "Missing SFF flow information"
    | some an0 =>
      let flow_chars := an0.flowChars
      let key_sequence := an0.flowKey
      match write_header 0 0 records.length flow_chars key_sequence with
      | none => none
      | some header0 =>
        match writeRecordsAux flow_chars key_sequence header0.length
                (if withIndex then some [] else none) records with
        | none => none
        | some (body, idxF) =>
          match idxF with
          | none => some (header0 ++ body)
          | some entries =>
            match write_index_block entries xml with
            | none => none
            | some (iblock, index_length) =>
              match write_header (header0.length + body.length) index_length
                      records.length flow_chars key_sequence with
              | none => none
              | some header1 => some (header1 ++ body ++ iblock)

/-! ## Concrete example data used by witnesses -/

/-- A minimal well-formed record with a 14-byte name. -/
def exAnnots : ReadAnnots :=
  { flowValues := [100, 200, 300, 65535], flowIndex := [1, 2, 1, 1],
    flowChars := [84, 65, 67, 71], flowKey := [84, 67, 65, 71],
    clipQualLeft := 2, clipQualRight := 3,
    clipAdapterLeft := 0, clipAdapterRight := 0 }

def exRecord : SeqRecord :=
  { id := [69, 88, 65, 77, 80, 76, 69, 48, 48, 48, 48, 48, 48, 49],
    seq := [65, 67, 71, 84], quals := [10, 20, 30, 40],
    annots := some exAnnots }

def exRecord2 : SeqRecord :=
  { exRecord with id := [69, 88, 65, 77, 80, 76, 69, 48, 48, 48, 48, 48, 48, 50] }

/-- The SFF file written from the two example records with XML blob "X". -/
def exFile : List Nat := (write_file true [88] [exRecord, exRecord2]).getD []

def c7Header : List Nat := (write_header 0 0 2 [84, 65, 67, 71] [84, 67, 65, 71]).getD []

def c7RecordBytes : List Nat :=
  (write_record [84, 65, 67, 71] [84, 67, 65, 71] exRecord).getD []

def c7IndexPair : List Nat × Nat :=
  (write_index_block [(exRecord.id, 40)] [88]).getD ([], 0)

def decodeOf (fc ks : List Nat) (trim : Bool) (r : SeqRecord) : SeqRecord :=
  match r.annots with
  | none => r
  | some an =>
    mkDecodedRecord fc ks trim r.id an.clipQualLeft an.clipQualRight
      an.clipAdapterLeft an.clipAdapterRight
      { flowValues := an.flowValues, flowIndex := an.flowIndex,
        bases := r.seq.map upperByte, qualVals := r.quals }

/-- A valid 1-read SFF file that stores its single base in LOWER case
(byte 97 = 'a' at index 81).  It is exactly the writer's output for the same
read except for that one byte, and every reader of SffIO.py accepts it: the
header parses, all reads decode, and both index paths succeed. -/
def c1File : List Nat :=
  [46, 115, 102, 102, 0, 0, 0, 1, 0, 0, 0, 0, 0, 0, 0, 88, 0, 0, 0, 37,
   0, 0, 0, 1, 0, 40, 0, 4, 0, 4, 1, 84, 65, 67, 71, 84, 67, 65, 71, 0,
   0, 32, 0, 14, 0, 0, 0, 1, 0, 0, 0, 0, 0, 0, 0, 0, 69, 88, 65, 77,
   80, 76, 69, 48, 48, 48, 48, 48, 48, 49, 0, 0, 0, 100, 0, 200, 1, 44, 1, 144,
   1, 97, 30, 0, 0, 0, 0, 0, 46, 109, 102, 116, 49, 46, 48, 48, 0, 0, 0, 1,
   0, 0, 0, 20, 88, 69, 88, 65, 77, 80, 76, 69, 48, 48, 48, 48, 48, 48, 49, 0,
   0, 0, 0, 40, 255, 0, 0, 0]

/-- The records decoded (untrimmed) from `c1File`. -/
def c1Records : List SeqRecord := (SffIterator false c1File).getD []

/-- The file written back from the decoded records of `c1File`. -/
def c1Out : List Nat := (write_file true [88] c1Records).getD []

/-- A single read record byte stream: name of 14 bytes, seq_len 1, all clip
fields stored as 0, 4 flow values, single base stored lower-case
(byte 97 = 'a'). -/
def c4Bytes : List Nat :=
  [0, 32, 0, 14, 0, 0, 0, 1, 0, 0, 0, 0, 0, 0, 0, 0, 69, 88, 65, 77,
   80, 76, 69, 48, 48, 48, 48, 48, 48, 49, 0, 0, 0, 100, 0, 200, 1, 44, 1, 144,
   1, 97, 30, 0, 0, 0, 0, 0]

def c4Untrimmed : SeqRecord :=
  ((sff_read_seq_record 4 [84, 65, 67, 71] [84, 67, 65, 71] false
    c4Bytes).getD ({ id := [], seq := [], quals := [], annots := none },
      [])).1

def c4Trimmed : SeqRecord :=
  ((sff_read_seq_record 4 [84, 65, 67, 71] [84, 67, 65, 71] true
    c4Bytes).getD ({ id := [], seq := [], quals := [], annots := none },
      [])).1

def c4An : ReadAnnots :=
  c4Untrimmed.annots.getD
    { flowValues := [], flowIndex := [], flowChars := [], flowKey := [],
      clipQualLeft := 0, clipQualRight := 0,
      clipAdapterLeft := 0, clipAdapterRight := 0 }

/-- The read `c4Bytes` with clip_qual_right stored as 5 (bytes 10-11). -/
def c6Bytes : List Nat :=
  [0, 32, 0, 14, 0, 0, 0, 1, 0, 0, 0, 5, 0, 0, 0, 0, 69, 88, 65, 77,
   80, 76, 69, 48, 48, 48, 48, 48, 48, 49, 0, 0, 0, 100, 0, 200, 1, 44, 1, 144,
   1, 97, 30, 0, 0, 0, 0, 0]

def c6Rec : SeqRecord :=
  ((sff_read_seq_record 4 [84, 65, 67, 71] [84, 67, 65, 71] false
    c6Bytes).getD ({ id := [], seq := [], quals := [], annots := none },
      [])).1

def c6An : ReadAnnots :=
  c6Rec.annots.getD
    { flowValues := [], flowIndex := [], flowChars := [], flowKey := [],
      clipQualLeft := 0, clipQualRight := 0,
      clipAdapterLeft := 0, clipAdapterRight := 0 }

/-- A valid SFF file whose embedded Roche index block parses (correct magic,
version, sizes and entry format) but whose two index entries carry each
other's name: it is `exFile` with index bytes 169-182 and 189-202 swapped. -/
def c2File : List Nat :=
  [ 46, 115, 102, 102, 0, 0, 0, 1, 0, 0, 0, 0, 0, 0, 0, 152, 0, 0, 0, 57, 0,
   0, 0, 2, 0, 40, 0, 4, 0, 4, 1, 84, 65, 67, 71, 84, 67, 65, 71, 0, 0, 32, 0,
   14, 0, 0, 0, 4, 0, 3, 0, 3, 0, 0, 0, 0, 69, 88, 65, 77, 80, 76, 69, 48, 48,
   48, 48, 48, 48, 49, 0, 0, 0, 100, 0, 200, 1, 44, 255, 255, 1, 2, 1, 1, 65,
   67, 71, 84, 10, 20, 30, 40, 0, 0, 0, 0, 0, 32, 0, 14, 0, 0, 0, 4, 0, 3, 0,
   3, 0, 0, 0, 0, 69, 88, 65, 77, 80, 76, 69, 48, 48, 48, 48, 48, 48, 50, 0,
   0, 0, 100, 0, 200, 1, 44, 255, 255, 1, 2, 1, 1, 65, 67, 71, 84, 10, 20, 30,
   40, 0, 0, 0, 0, 46, 109, 102, 116, 49, 46, 48, 48, 0, 0, 0, 1, 0, 0, 0, 40,
   88, 69, 88, 65, 77, 80, 76, 69, 48, 48, 48, 48, 48, 48, 50, 0, 0, 0, 0, 40,
   255, 69, 88, 65, 77, 80, 76, 69, 48, 48, 48, 48, 48, 48, 49, 0, 0, 0, 0,
   96, 255, 0, 0, 0, 0, 0, 0, 0]

/-- A record identical to `exRecord` except that its name is 13 bytes long
instead of the 14 required by the Roche index convention. -/
def c10Record : SeqRecord :=
  { exRecord with id := [69, 88, 65, 77, 80, 76, 69, 48, 48, 48, 48, 48, 49] }

/-- The writer's output for the single record `c10Record` with an index
requested. -/
def c10File : List Nat := (write_file true [88] [c10Record]).getD []

/-! ## The in-memory offset store of `_IndexedSeqFileDict` -/

/-- Python dictionary assignment `d[k] = v`: if the key is present its value
is replaced, otherwise the pair is appended (insertion order preserved). -/
def pyDictSet : List (List Nat × Nat) → List Nat → Nat → List (List Nat × Nat)
  | [], k, v => [(k, v)]
  | (k0, v0) :: rest, k, v =>
    if k0 = k then (k0, v) :: rest else (k0, v0) :: pyDictSet rest k v

/-- Python dictionary lookup `d[k]` as an `Option`. -/
def pyDictGet (d : List (List Nat × Nat)) (k : List Nat) : Option Nat :=
  (d.find? (fun p => p.1 == k)).map Prod.snd

/-- `_IndexedSeqFileDict._record_key(identifier, seek_position)`
(_index.py lines 140-153): applies the key function when given, then stores
the offset with a plain dictionary assignment `self._offsets[key] =
seek_position` — there is no duplicate check of any kind. -/
def record_key (key_function : Option (List Nat → List Nat))
    (identifier : List Nat) (seek_position : Nat)
    (offsets : List (List Nat × Nat)) : List (List Nat × Nat) :=
  let key := match key_function with
    | some f => f identifier
    | none => identifier
  pyDictSet offsets key seek_position

/-! ## The FASTQ index builder `FastqDict._build` -/

/-- Python `str.isspace` on a byte, for the characters FASTQ lines contain
(space, tab, newline, carriage return). -/
def isSpaceByte (b : Nat) : Bool := b == 32 || b == 9 || b == 10 || b == 13

/-- Python `line.strip()`. -/
def stripBytes (l : List Nat) : List Nat :=
  ((l.dropWhile isSpaceByte).reverse.dropWhile isSpaceByte).reverse

/-- Python `line.rstrip()`. -/
def rstripBytes (l : List Nat) : List Nat :=
  (l.reverse.dropWhile isSpaceByte).reverse

/-- `line[1:].rstrip().split(None, 1)[0]` (_index.py line 694): the first
whitespace-delimited token after the record marker; `none` models the
IndexError Python raises when there is no token at all. -/
def fastqKey (line : List Nat) : Option (List Nat) :=
  let s := rstripBytes (line.drop 1)
  let tok := (s.dropWhile isSpaceByte).takeWhile (fun b => !(isSpaceByte b))
  if tok = [] then none else some tok

/-- The seq-section loop of `FastqDict._build` (lines 695-701): reads lines,
adding `len(line.strip())` to the running count, until a line starting with
"+" (byte 43) appears; hitting end of file raises ("Premature end of file in
seq section", modelled as `none`).  Returns the sequence length, the lines
after the "+" line, and the new handle position. -/
def seqSection : List (List Nat) → Nat → Nat → Option (Nat × List (List Nat) × Nat)
  | [], _, _ => none
  | l :: rest, hpos, seqLen =>
    if l.head? = some 43 then some (seqLen, rest, hpos + l.length)
    else seqSection rest (hpos + l.length) (seqLen + (stripBytes l).length)

/-- The qual-section loop of `FastqDict._build` (lines 703-717): counts
quality characters until the count reaches `seqLen`, then records the handle
position and reads one more line.  Faithful to the source, the check on that
line (line 711, `if line and line[0] != "@"`) builds a ValueError but never
raises it, so a non-record line is returned as the next current line instead
of failing.  Exhausting the file while the counts differ is the hard error
"Problem with quality section" (`none`).  Returns the next current line
(`none` at end of file), the remaining lines, the recorded position for the
next record, and the handle position. -/
def qualSection : List (List Nat) → Nat → Nat → Nat →
    Option (Option (List Nat) × List (List Nat) × Nat × Nat)
  | [], hpos, seqLen, qualLen =>
    if seqLen = qualLen then some (none, [], hpos, hpos) else none
  | l :: rest, hpos, seqLen, qualLen =>
    if seqLen = qualLen then some (some l, rest, hpos, hpos + l.length)
    else qualSection rest (hpos + l.length) seqLen
      (qualLen + (stripBytes l).length)

/-- The outer record loop of `FastqDict._build` (lines 691-717), with fuel
bounding the number of iterations (each iteration consumes at least one
line).  `line?` is the current line, `pos` the offset recorded for the
current record, `hpos` the handle position, `acc` the offset store. -/
def fastqBuildAux : Nat → Option (List Nat) → List (List Nat) → Nat → Nat →
    List (List Nat × Nat) → Option (List (List Nat × Nat))
  | 0, _, _, _, _, _ => none
  | _ + 1, none, _, _, _, acc => some acc
  | fuel + 1, some line, lines, pos, hpos, acc =>
    if line = [] then some acc
    else
      match fastqKey line with
      | none => none
      | some key =>
        let acc1 := record_key none key pos acc
        match seqSection lines hpos 0 with
        | none => none
        | some (seqLen, lines1, hpos1) =>
          match qualSection lines1 hpos1 seqLen 0 with
          | none => none
          | some (nextLine, lines2, pos2, hpos2) =>
            fastqBuildAux fuel nextLine lines2 pos2 hpos2 acc1

/-- `FastqDict._build` (_index.py lines 682-719) over a file given as its
list of lines (each line keeping its trailing newline byte, as
`handle.readline()` returns them). -/
def fastqBuild (lines : List (List Nat)) : Option (List (List Nat × Nat)) :=
  match lines with
  | [] => some []
  | l :: rest =>
    if l.head? = some 64 then
      fastqBuildAux (lines.length + 1) (some l) rest 0 l.length []
    else none

/-- A FASTQ file whose first record is well formed but is followed by the
line "XGARBAGE", which does not start a record: a correct parser must reject
the file at that boundary. -/
def c9Lines : List (List Nat) :=
  [[64, 97, 10],
   [65, 67, 71, 84, 10],
   [43, 10],
   [73, 73, 73, 73, 10],
   [88, 71, 65, 82, 66, 65, 71, 69, 10],
   [65, 67, 71, 84, 10],
   [43, 10],
   [73, 73, 73, 73, 10]]

/-! ### Round-trip lemmas for the primitives -/

theorem readU16_u16be (v : Nat) (r : List Nat) (h : v < 65536) :
    readU16 (u16be v ++ r) = some (v, r) := by
  simp only [u16be, List.cons_append, List.nil_append, readU16]
  congr 1
  congr 1
  omega

theorem readU32_u32be (v : Nat) (r : List Nat) (h : v < 4294967296) :
    readU32 (u32be v ++ r) = some (v, r) := by
  simp only [u32be, List.cons_append, List.nil_append, readU32]
  congr 1
  congr 1
  omega

theorem readU64_u64be (v : Nat) (r : List Nat) (h : v < 18446744073709551616) :
    readU64 (u64be v ++ r) = some (v, r) := by
  simp only [u64be, List.cons_append, List.nil_append, readU64]
  congr 1
  congr 1
  omega

theorem readBytes_exact (a r : List Nat) :
    readBytes a.length (a ++ r) = some (a, r) := by
  simp [readBytes, List.take_append, List.drop_append]

theorem readBytes_exact' (n : Nat) (a r : List Nat) (h : a.length = n) :
    readBytes n (a ++ r) = some (a, r) := by
  subst h; exact readBytes_exact a r

theorem checkZeros_replicate (n : Nat) (r : List Nat) :
    checkZeros n (List.replicate n 0 ++ r) = some r := by
  unfold checkZeros
  rw [readBytes_exact' n _ r (List.length_replicate n 0)]
  simp

theorem packU16s_length (vs : List Nat) : (packU16s vs).length = 2 * vs.length := by
  induction vs with
  | nil => simp [packU16s]
  | cons v vs ih => simp [packU16s, u16be, ih]; omega

theorem readU16s_packU16s (vs : List Nat) (r : List Nat)
    (h : ∀ v ∈ vs, v < 65536) :
    readU16s vs.length (packU16s vs ++ r) = some (vs, r) := by
  induction vs with
  | nil => simp [packU16s, readU16s]
  | cons v vs ih =>
    have hv : v < 65536 := h v (List.mem_cons_self v vs)
    have ih' := ih (fun x hx => h x (List.mem_cons_of_mem v hx))
    simp only [packU16s, List.length_cons, readU16s, List.append_assoc,
               readU16_u16be v _ hv, ih']

theorem upperByte_lowerByte (b : Nat) : upperByte (lowerByte b) = upperByte b := by
  unfold upperByte lowerByte
  by_cases h1 : 65 ≤ b ∧ b ≤ 90
  · rw [if_pos h1, if_pos (by omega : 97 ≤ b + 32 ∧ b + 32 ≤ 122),
        if_neg (by omega : ¬(97 ≤ b ∧ b ≤ 122))]
    omega
  · rw [if_neg h1]

theorem upperByte_upperByte (b : Nat) : upperByte (upperByte b) = upperByte b := by
  unfold upperByte
  by_cases h : 97 ≤ b ∧ b ≤ 122
  · rw [if_pos h, if_neg (by omega : ¬(97 ≤ b - 32 ∧ b - 32 ≤ 122))]
  · rw [if_neg h, if_neg h]

theorem map_upperByte_lowerByte (l : List Nat) :
    (l.map lowerByte).map upperByte = l.map upperByte := by
  simp [List.map_map, Function.comp_def, upperByte_lowerByte]

theorem map_upperByte_upperByte (l : List Nat) :
    (l.map upperByte).map upperByte = l.map upperByte := by
  simp [List.map_map, Function.comp_def, upperByte_upperByte]

/-! ## The base-255 offset codec -/

theorem encode_offset_eq (x : Nat) :
    encode_offset x =
      (x / 16581375, x / 65025 % 255, x / 255 % 255, x % 255) := by
  have h1 : x - x % 255 = 255 * (x / 255) := by omega
  have h2 : 255 * (x / 255) - 255 * (x / 255) % 65025 = 65025 * (x / 65025) := by
    rw [show (65025 : Nat) = 255 * 255 from rfl, Nat.mul_mod_mul_left,
        ← Nat.div_div_eq_div_mul]
    generalize x / 255 = q
    omega
  have h3 : 65025 * (x / 65025) - 65025 * (x / 65025) % 16581375 =
      16581375 * (x / 16581375) := by
    rw [show (16581375 : Nat) = 65025 * 255 from rfl, Nat.mul_mod_mul_left,
        ← Nat.div_div_eq_div_mul]
    generalize x / 65025 = q
    omega
  simp only [encode_offset, Prod.mk.injEq]
  refine ⟨?_, ?_, ?_, trivial⟩
  · rw [h1, h2, h3, Nat.mul_div_cancel_left _ (by omega : 0 < 16581375)]
  · rw [h1, h2, show (16581375 : Nat) = 65025 * 255 from rfl,
        Nat.mul_mod_mul_left, Nat.mul_div_cancel_left _ (by omega : 0 < 65025)]
  · rw [h1, show (65025 : Nat) = 255 * 255 from rfl,
        Nat.mul_mod_mul_left, Nat.mul_div_cancel_left _ (by omega : 0 < 255)]

theorem decode_encode_offset (x : Nat) (hx : x < 4228250625) :
    decode_offset (encode_offset x).1 (encode_offset x).2.1
      (encode_offset x).2.2.1 (encode_offset x).2.2.2 = x := by
  rw [encode_offset_eq]
  simp only [decode_offset]
  omega

theorem encode_offset_digit_bounds (x : Nat) (hx : x < 4228250625) :
    (encode_offset x).1 < 255 ∧ (encode_offset x).2.1 < 255 ∧
    (encode_offset x).2.2.1 < 255 ∧ (encode_offset x).2.2.2 < 255 := by
  rw [encode_offset_eq]
  refine ⟨?_, ?_, ?_, ?_⟩ <;> simp <;> omega

/-! ## Length lemmas for the writer -/

theorem write_header_length (a b c : Nat) (fc ks hb : List Nat)
    (h : write_header a b c fc ks = some hb) :
    hb.length = 31 + fc.length + ks.length +
      (8 - (31 + fc.length + ks.length) % 8) % 8 := by
  simp only [write_header] at h
  split at h
  · injection h with h
    subst h
    simp [u32be, u64be, u16be]
    omega
  · cases h

theorem entryBytes_length (e : List Nat × Nat) : (entryBytes e).length = 20 := by
  simp [entryBytes]

theorem sortEntries_perm (l : List (List Nat × Nat)) :
    (sortEntries l).Perm l :=
  List.perm_insertionSort entryR l

theorem sortEntries_length (l : List (List Nat × Nat)) :
    (sortEntries l).length = l.length :=
  (sortEntries_perm l).length_eq

theorem entries_flatten_length (l : List (List Nat × Nat)) :
    ((l.map entryBytes).flatten).length = 20 * l.length := by
  induction l with
  | nil => simp
  | cons x xs ih =>
    simp only [List.map_cons, List.flatten_cons, List.length_append,
               List.length_cons, entryBytes_length, ih]
    omega

theorem map_length_entryBytes_sum (l : List (List Nat × Nat)) :
    (l.map (List.length ∘ entryBytes)).sum = 20 * l.length := by
  induction l with
  | nil => simp
  | cons x xs ih =>
    simp only [List.map_cons, List.sum_cons, Function.comp_apply,
               List.length_cons, entryBytes_length, ih]
    omega

theorem write_record_length_mod8 (fc ks : List Nat) (r : SeqRecord)
    (bs : List Nat) (h : write_record fc ks r = some bs) :
    bs.length % 8 = 0 := by
  simp only [write_record] at h
  split at h
  · cases h
  · split at h
    · rename_i an heq hcond
      obtain ⟨hfk, hfc, hfl, hfv, hfil, hfi, hql, hq, hrest⟩ := hcond
      injection h with h
      subst h
      simp [u16be, u32be, packU16s_length, hfl, hfil, hql]
      omega
    · cases h

theorem write_index_block_shape (es : List (List Nat × Nat)) (xml ib : List Nat)
    (il : Nat) (h : write_index_block es xml = some (ib, il)) :
    ib.length % 8 = 0 ∧ il = 16 + xml.length + es.length * 20 ∧
    ib.length = il + (8 - il % 8) % 8 := by
  simp only [write_index_block] at h
  split at h
  · injection h with h
    injection h with h1 h2
    subst h1
    subst h2
    refine ⟨?_, ?_, ?_⟩ <;>
      simp [u32be, map_length_entryBytes_sum, sortEntries_length] <;> omega
  · cases h

/-! ## Claim C3 -/

/-- Claim C3: for every integer x with 0 <= x <= 255^4 - 1, encoding x into
four base-255 digits (as `SffWriter._write_index` does via successive
remainders by 255, 65025 and 16581375) and decoding the digits back as
offset = b0 + 255*b1 + 65025*b2 + 16581375*b3 (as `_sff_read_roche_index`
does) returns x; conversely, for every 4-digit input with each digit in
[0, 255), decoding then re-encoding reproduces the digits. -/
theorem claim_C3 (x d3 d2 d1 d0 : Nat) (hx : x < 4228250625)
    (h3 : d3 < 255) (h2 : d2 < 255) (h1 : d1 < 255) (h0 : d0 < 255) :
    decode_offset (encode_offset x).1 (encode_offset x).2.1
        (encode_offset x).2.2.1 (encode_offset x).2.2.2 = x ∧
    encode_offset (decode_offset d3 d2 d1 d0) = (d3, d2, d1, d0) := by
  constructor
  · exact decode_encode_offset x hx
  · rw [encode_offset_eq]
    simp only [decode_offset, Prod.mk.injEq]
    refine ⟨?_, ?_, ?_, ?_⟩ <;> omega

/-- Witness for claim C3 at x = 16581377 and digits (7, 5, 3, 2). -/
theorem claim_C3_witness :
    decode_offset (encode_offset 16581377).1 (encode_offset 16581377).2.1
        (encode_offset 16581377).2.2.1 (encode_offset 16581377).2.2.2 =
      16581377 ∧
    encode_offset (decode_offset 7 5 3 2) = (7, 5, 3, 2) :=
  claim_C3 16581377 7 5 3 2 (by decide) (by decide) (by decide) (by decide)
    (by decide)

/-! ## Claim C7 -/

/-- Claim C7: every global header, read record, and index block emitted by
`SffWriter` has total byte length congruent to 0 modulo 8, achieved by the
zero padding each emitter appends at write time. -/
theorem claim_C7 (a b c : Nat) (fc ks hb : List Nat) (r : SeqRecord)
    (rb : List Nat) (es : List (List Nat × Nat)) (xml ib : List Nat) (il : Nat)
    (h1 : write_header a b c fc ks = some hb)
    (h2 : write_record fc ks r = some rb)
    (h3 : write_index_block es xml = some (ib, il)) :
    hb.length % 8 = 0 ∧ rb.length % 8 = 0 ∧ ib.length % 8 = 0 := by
  refine ⟨?_, write_record_length_mod8 fc ks r rb h2,
          (write_index_block_shape es xml ib il h3).1⟩
  rw [write_header_length a b c fc ks hb h1]
  omega

/-- Witness for claim C7 on the concrete example header, record and index
block. -/
theorem claim_C7_witness :
    c7Header.length % 8 = 0 ∧ c7RecordBytes.length % 8 = 0 ∧
    c7IndexPair.1.length % 8 = 0 :=
  claim_C7 0 0 2 [84, 65, 67, 71] [84, 67, 65, 71] c7Header exRecord
    c7RecordBytes [(exRecord.id, 40)] [88] c7IndexPair.1 c7IndexPair.2
    (by rfl) (by rfl) (by rfl)

/-! ## Decode-of-encode: one record -/

theorem readReadHeaderFixed_bytes (a b d e f g k : Nat) (tail : List Nat)
    (ha : a < 65536) (hb : b < 65536) (hd : d < 4294967296)
    (he : e < 65536) (hf : f < 65536) (hg : g < 65536) (hk : k < 65536) :
    readReadHeaderFixed (u16be a ++ (u16be b ++ (u32be d ++ (u16be e ++
        (u16be f ++ (u16be g ++ (u16be k ++ tail))))))) =
      some ({ readHeaderLength := a, nameLength := b, seqLen := d,
              clipQualLeft0 := e, clipQualRight := f,
              clipAdapterLeft0 := g, clipAdapterRight := k }, tail) := by
  simp [readReadHeaderFixed, readU16_u16be, readU32_u32be,
        ha, hb, hd, he, hf, hg, hk, Option.bind]

theorem readReadPayload_bytes (fv fi bs qs rest : List Nat) (S : Nat)
    (hfv : ∀ v ∈ fv, v < 65536)
    (hfi : fi.length = S) (hbs : bs.length = S) (hqs : qs.length = S) :
    readReadPayload fv.length S (packU16s fv ++ (fi ++ (bs ++ (qs ++
        (List.replicate ((8 - (2 * fv.length + 3 * S) % 8) % 8) 0 ++
         rest))))) =
      some ({ flowValues := fv, flowIndex := fi, bases := bs,
              qualVals := qs }, rest) := by
  simp [readReadPayload, List.append_assoc, readU16s_packU16s fv _ hfv,
        readBytes_exact' S fi _ hfi, readBytes_exact' S bs _ hbs,
        readBytes_exact' S qs _ hqs, checkZeros_replicate, Option.bind]

theorem decodeClipLeft_encodeClipLeft (v : Nat) :
    decodeClipLeft (encodeClipLeft v) = v := by
  by_cases h : v = 0
  · simp [decodeClipLeft, encodeClipLeft, h]
  · simp [decodeClipLeft, encodeClipLeft, h]

theorem read_of_write_record (fc ks : List Nat) (r : SeqRecord)
    (bs rest : List Nat) (trim : Bool)
    (h : write_record fc ks r = some bs) :
    sff_read_seq_record fc.length fc ks trim (bs ++ rest) =
      some (decodeOf fc ks trim r, rest) := by
  simp only [write_record] at h
  split at h
  · cases h
  next an har =>
    split at h
    case isFalse => cases h
    case isTrue hcond =>
      obtain ⟨hfk, hfc, hflen, hfv, hfilen, hfi, hqlen, hq, hrhl, hnl, hsl,
              hc1, hc2, hc3, hc4⟩ := hcond
      injection h with h
      subst h
      have hg1 : ¬(16 + r.id.length + (8 - (16 + r.id.length) % 8) % 8 < 10 ∨
          (16 + r.id.length + (8 - (16 + r.id.length) % 8) % 8) % 8 ≠ 0) := by
        omega
      have hg2 : ¬(16 + r.id.length + (8 - (16 + r.id.length) % 8) % 8 <
          16 + r.id.length) := by omega
      have hsub : 16 + r.id.length + (8 - (16 + r.id.length) % 8) % 8 - 16 -
          r.id.length = (8 - (16 + r.id.length) % 8) % 8 := by omega
      have hpay := readReadPayload_bytes an.flowValues an.flowIndex
        (List.map upperByte r.seq) r.quals rest
        (List.map upperByte r.seq).length hfv hfilen rfl hqlen
      rw [hflen] at hpay
      simp only [sff_read_seq_record, List.append_assoc,
        readReadHeaderFixed_bytes _ _ _ _ _ _ _ _ hrhl hnl hsl hc1 hc2 hc3 hc4,
        hg1, hg2, hsub, if_false, readBytes_exact' r.id.length r.id _ rfl,
        checkZeros_replicate, hpay]
      simp [decodeOf, har, decodeClipLeft_encodeClipLeft]

/-! ## Decode-of-encode: the file header -/

theorem readFileHeaderFixed_bytes (m a b c hl kl fl : Nat)
    (ver fmt tail : List Nat)
    (hm : m < 4294967296) (hver : ver.length = 4)
    (ha : a < 18446744073709551616) (hb : b < 4294967296)
    (hc : c < 4294967296) (hhl : hl < 65536) (hkl : kl < 65536)
    (hfl : fl < 65536) (hfmt : fmt.length = 1) :
    readFileHeaderFixed (u32be m ++ (ver ++ (u64be a ++ (u32be b ++ (u32be c ++
        (u16be hl ++ (u16be kl ++ (u16be fl ++ (fmt ++ tail))))))))) =
      some ({ magicNumber := m, version := ver, indexOffset := a,
              indexLength := b, numberOfReads := c, headerLength := hl,
              keyLength := kl, numberOfFlowsPerRead := fl,
              flowgramFormat := fmt }, tail) := by
  simp [readFileHeaderFixed, readU32_u32be, readU64_u64be, readU16_u16be,
        readBytes_exact' 4 ver _ hver, readBytes_exact' 1 fmt _ hfmt,
        hm, ha, hb, hc, hhl, hkl, hfl, Option.bind]

theorem read_of_write_header (a b c : Nat) (fc ks hb t : List Nat)
    (h : write_header a b c fc ks = some hb)
    (hxor : a = 0 ↔ b = 0) :
    sff_file_header (hb ++ t) =
      some ({ headerLength := 31 + fc.length + ks.length +
                (8 - (31 + fc.length + ks.length) % 8) % 8,
              indexOffset := a, indexLength := b, numberOfReads := c,
              numberOfFlowsPerRead := fc.length,
              flowChars := fc, keySequence := ks }, t) := by
  simp only [write_header] at h
  split at h
  case isFalse => cases h
  case isTrue hcond =>
    obtain ⟨hio, hil, hnr, hhl, hkl, hfl⟩ := hcond
    injection h with h
    subst h
    have hfix := readFileHeaderFixed_bytes 779314790 a b c
      (31 + fc.length + ks.length + (8 - (31 + fc.length + ks.length) % 8) % 8)
      ks.length fc.length [0, 0, 0, 1] [1]
      (fc ++ (ks ++ (List.replicate ((8 - (31 + fc.length + ks.length) % 8) % 8) 0 ++ t)))
      (by omega) rfl hio hil hnr hhl hkl hfl rfl
    have hg1 : ¬(31 + fc.length + ks.length +
        (8 - (31 + fc.length + ks.length) % 8) % 8) % 8 ≠ 0 := by omega
    have hg2 : 31 + fc.length + ks.length ≤ 31 + fc.length + ks.length +
          (8 - (31 + fc.length + ks.length) % 8) % 8 ∧
        31 + fc.length + ks.length +
          (8 - (31 + fc.length + ks.length) % 8) % 8 <
          39 + fc.length + ks.length := by
      constructor <;> omega
    have hsub : 31 + fc.length + ks.length +
        (8 - (31 + fc.length + ks.length) % 8) % 8 - fc.length - ks.length - 31 =
        (8 - (31 + fc.length + ks.length) % 8) % 8 := by omega
    simp only [List.cons_append, List.nil_append] at hfix
    simp only [sff_file_header, List.append_assoc, List.cons_append,
      List.nil_append, hfix, hxor, hsub, readBytes_exact' fc.length fc _ rfl,
      readBytes_exact' ks.length ks _ rfl, checkZeros_replicate]
    simp [hg1, hg2]
    omega

/-! ## Decode-of-encode: the record loop -/

theorem decodeOf_id (fc ks : List Nat) (trim : Bool) (r : SeqRecord) :
    (decodeOf fc ks trim r).id = r.id := by
  unfold decodeOf
  cases r.annots with
  | none => rfl
  | some an => cases trim <;> rfl

theorem iterReads_writeRecordsAux (fc ks : List Nat) (recs : List SeqRecord)
    (trim : Bool) (pos : Nat) (idx : Option (List (List Nat × Nat)))
    (body : List Nat) (idxF : Option (List (List Nat × Nat))) (rest : List Nat)
    (h : writeRecordsAux fc ks pos idx recs = some (body, idxF)) :
    iterReads fc.length fc ks trim recs.length (body ++ rest) =
      some (recs.map (decodeOf fc ks trim), rest) := by
  induction recs generalizing pos idx body with
  | nil =>
    simp only [writeRecordsAux] at h
    injection h with h
    injection h with h1 h2
    subst h1
    simp [iterReads]
  | cons r rs ih =>
    simp only [writeRecordsAux] at h
    cases hw : write_record fc ks r with
    | none => rw [hw] at h; cases h
    | some bs =>
      rw [hw] at h
      simp only at h
      cases hrec : writeRecordsAux fc ks (pos + bs.length) (idxUpdate r pos idx)
          rs with
      | none => rw [hrec] at h; cases h
      | some p =>
        obtain ⟨body', idxF'⟩ := p
        rw [hrec] at h
        injection h with h
        injection h with h1 h2
        subst h1
        subst h2
        have htail := ih (pos + bs.length) (idxUpdate r pos idx) body' hrec
        simp only [List.length_cons, iterReads, List.append_assoc,
          read_of_write_record fc ks r bs _ trim hw, htail, List.map_cons]

/-! ## Re-encoding decoded records -/

theorem slice_concat (l : List Nat) (L R : Nat) (h1 : L ≤ R) :
    l.take L ++ (l.drop L).take (R - L) ++ l.drop R = l := by
  rw [List.append_assoc]
  conv_rhs => rw [← List.take_append_drop L l]
  congr 1
  conv_rhs => rw [← List.take_append_drop (R - L) (l.drop L)]
  congr 1
  rw [List.drop_drop]
  congr 1
  omega

theorem write_record_congr (fc ks : List Nat) (r1 r2 : SeqRecord)
    (hid : r2.id = r1.id) (hseq : r2.seq.map upperByte = r1.seq.map upperByte)
    (hq : r2.quals = r1.quals) (han : r2.annots = r1.annots) :
    write_record fc ks r2 = write_record fc ks r1 := by
  simp only [write_record, hid, hseq, hq, han]

theorem write_record_guard (fc ks : List Nat) (r : SeqRecord) (bs : List Nat)
    (h : write_record fc ks r = some bs) :
    ∃ an, r.annots = some an ∧ an.flowKey = ks ∧ an.flowChars = fc := by
  simp only [write_record] at h
  split at h
  · cases h
  next an har =>
    split at h
    case isTrue hcond => exact ⟨an, har, hcond.1, hcond.2.1⟩
    case isFalse => cases h

theorem decodeOf_annots (fc ks : List Nat) (r : SeqRecord) (an : ReadAnnots)
    (har : r.annots = some an) (hfk : an.flowKey = ks) (hfc : an.flowChars = fc) :
    (decodeOf fc ks false r).annots = r.annots := by
  rw [har, ← hfk, ← hfc]
  simp [decodeOf, har, mkDecodedRecord]

theorem decodeOf_quals (fc ks : List Nat) (r : SeqRecord) (an : ReadAnnots)
    (har : r.annots = some an) :
    (decodeOf fc ks false r).quals = r.quals := by
  simp [decodeOf, har, mkDecodedRecord]

theorem decodeOf_seq_upper (fc ks : List Nat) (r : SeqRecord) (an : ReadAnnots)
    (har : r.annots = some an)
    (hL : an.clipQualLeft ≤ an.clipQualRight) :
    (decodeOf fc ks false r).seq.map upperByte = r.seq.map upperByte := by
  simp only [decodeOf, har, mkDecodedRecord, Bool.false_eq_true, if_false]
  rw [List.map_append, List.map_append, map_upperByte_lowerByte,
      map_upperByte_upperByte, map_upperByte_lowerByte,
      ← List.map_append, ← List.map_append,
      slice_concat _ _ _ hL, map_upperByte_upperByte]

theorem write_record_decodeOf (fc ks : List Nat) (r : SeqRecord) (bs : List Nat)
    (h : write_record fc ks r = some bs)
    (hclip : ∀ an ∈ r.annots, an.clipQualLeft ≤ an.clipQualRight) :
    write_record fc ks (decodeOf fc ks false r) = some bs := by
  obtain ⟨an, har, hfk, hfc⟩ := write_record_guard fc ks r bs h
  have hL : an.clipQualLeft ≤ an.clipQualRight := hclip an (by rw [har]; rfl)
  rw [write_record_congr fc ks r (decodeOf fc ks false r)
        (decodeOf_id fc ks false r)
        (decodeOf_seq_upper fc ks r an har hL)
        (decodeOf_quals fc ks r an har)
        (decodeOf_annots fc ks r an har hfk hfc)]
  exact h

theorem writeRecordsAux_decodeOf (fc ks : List Nat) (recs : List SeqRecord)
    (pos : Nat) (idx : Option (List (List Nat × Nat))) (body : List Nat)
    (idxF : Option (List (List Nat × Nat)))
    (h : writeRecordsAux fc ks pos idx recs = some (body, idxF))
    (hclip : ∀ r ∈ recs, ∀ an ∈ r.annots,
      an.clipQualLeft ≤ an.clipQualRight) :
    writeRecordsAux fc ks pos idx (recs.map (decodeOf fc ks false)) =
      some (body, idxF) := by
  induction recs generalizing pos idx body with
  | nil => exact h
  | cons r rs ih =>
    simp only [writeRecordsAux, List.map_cons] at h ⊢
    cases hw : write_record fc ks r with
    | none => rw [hw] at h; cases h
    | some bs =>
      rw [hw] at h
      simp only at h
      rw [write_record_decodeOf fc ks r bs hw
            (hclip r (List.mem_cons_self r rs))]
      simp only
      have hidq : idxUpdate (decodeOf fc ks false r) pos idx =
          idxUpdate r pos idx := by
        cases idx with
        | none => rfl
        | some es => simp [idxUpdate, decodeOf_id]
      rw [hidq]
      cases hrec : writeRecordsAux fc ks (pos + bs.length) (idxUpdate r pos idx)
          rs with
      | none => rw [hrec] at h; cases h
      | some p =>
        obtain ⟨body', idxF'⟩ := p
        rw [hrec] at h
        simp only at h
        injection h with h
        injection h with h1 h2
        subst h1
        subst h2
        rw [ih (pos + bs.length) (idxUpdate r pos idx) body' hrec
              (fun x hx => hclip x (List.mem_cons_of_mem r hx))]

/-! ## The full-file round trip -/

theorem writeRecordsAux_cons_inv (fc ks : List Nat) (r : SeqRecord)
    (rs : List SeqRecord) (pos : Nat) (idx : Option (List (List Nat × Nat)))
    (body : List Nat) (idxF : Option (List (List Nat × Nat)))
    (h : writeRecordsAux fc ks pos idx (r :: rs) = some (body, idxF)) :
    ∃ bs body', write_record fc ks r = some bs ∧ body = bs ++ body' ∧
      writeRecordsAux fc ks (pos + bs.length) (idxUpdate r pos idx) rs =
        some (body', idxF) := by
  simp only [writeRecordsAux] at h
  cases hw : write_record fc ks r with
  | none => rw [hw] at h; cases h
  | some bs =>
    rw [hw] at h
    simp only at h
    cases hrec : writeRecordsAux fc ks (pos + bs.length) (idxUpdate r pos idx)
        rs with
    | none => rw [hrec] at h; cases h
    | some p =>
      obtain ⟨body', idxF'⟩ := p
      rw [hrec] at h
      simp only at h
      injection h with h
      injection h with h1 h2
      subst h1
      subst h2
      exact ⟨bs, body', rfl, rfl, hrec⟩

/-- Round trip for files produced by `SffWriter.write_file`: decoding with
`SffIterator` (untrimmed) and re-encoding with the same XML reproduces the
file byte-for-byte, provided each record's quality-clip window is
well-formed (`clip_qual_left ≤ clip_qual_right` in 0-based annotations). -/
theorem write_file_roundtrip (withIndex : Bool) (xml : List Nat)
    (records : List SeqRecord) (file : List Nat)
    (h : write_file withIndex xml records = some file)
    (hclip : ∀ r ∈ records, ∀ an ∈ r.annots,
      an.clipQualLeft ≤ an.clipQualRight) :
    ∃ rs, SffIterator false file = some rs ∧
      write_file withIndex xml rs = some file := by
  cases records with
  | nil => simp [write_file] at h
  | cons r0 rest0 =>
    simp only [write_file] at h
    cases han0 : r0.annots with
    | none => rw [han0] at h; cases h
    | some an0 =>
      rw [han0] at h
      simp only at h
      cases hh0 : write_header 0 0 (r0 :: rest0).length an0.flowChars
          an0.flowKey with
      | none => rw [hh0] at h; cases h
      | some header0 =>
        rw [hh0] at h
        simp only at h
        cases hwr : writeRecordsAux an0.flowChars an0.flowKey header0.length
            (if withIndex then some [] else none) (r0 :: rest0) with
        | none => rw [hwr] at h; cases h
        | some pr =>
          obtain ⟨body, idxF⟩ := pr
          rw [hwr] at h
          simp only at h
          -- facts about the first record, needed to re-open the writer
          obtain ⟨bs0, body0, hw0, hbody0, _⟩ :=
            writeRecordsAux_cons_inv _ _ _ _ _ _ _ _ hwr
          obtain ⟨an0', han0', hfk0, hfc0⟩ := write_record_guard _ _ _ _ hw0
          rw [han0] at han0'
          injection han0' with han0'
          subst han0'
          have hdan : (decodeOf an0.flowChars an0.flowKey false r0).annots =
              r0.annots := decodeOf_annots _ _ _ _ han0 hfk0 hfc0
          have hlen : (List.map (decodeOf an0.flowChars an0.flowKey false)
              (r0 :: rest0)).length = (r0 :: rest0).length := by
            simp
          have hwr' := writeRecordsAux_decodeOf _ _ _ _ _ _ _ hwr hclip
          cases idxF with
          | none =>
            injection h with h
            subst h
            refine ⟨List.map (decodeOf an0.flowChars an0.flowKey false)
              (r0 :: rest0), ?_, ?_⟩
            · simp only [SffIterator,
                read_of_write_header _ _ _ _ _ _ _ hh0 Iff.rfl]
              have := iterReads_writeRecordsAux an0.flowChars an0.flowKey
                (r0 :: rest0) false header0.length
                (if withIndex then some [] else none) body none [] hwr
              rw [List.append_nil] at this
              rw [this]
            · simp only [write_file, List.map_cons]
              rw [List.map_cons] at hwr' hlen
              rw [hdan, han0]
              simp only
              rw [hlen, hh0]
              simp only
              rw [hwr']
          | some entries =>
            simp only at h
            cases hib : write_index_block entries xml with
            | none => rw [hib] at h; cases h
            | some pib =>
              obtain ⟨iblock, il⟩ := pib
              rw [hib] at h
              simp only at h
              cases hh1 : write_header (header0.length + body.length) il
                  (r0 :: rest0).length an0.flowChars an0.flowKey with
              | none => rw [hh1] at h; cases h
              | some header1 =>
                rw [hh1] at h
                simp only at h
                injection h with h
                subst h
                have hxor : header0.length + body.length = 0 ↔ il = 0 := by
                  have hp := write_header_length _ _ _ _ _ _ hh0
                  have hq := (write_index_block_shape _ _ _ _ hib).2.1
                  constructor <;> intro hz <;> omega
                refine ⟨List.map (decodeOf an0.flowChars an0.flowKey false)
                  (r0 :: rest0), ?_, ?_⟩
                · rw [List.append_assoc]
                  simp only [SffIterator,
                    read_of_write_header _ _ _ _ _ _ _ hh1 hxor]
                  have := iterReads_writeRecordsAux an0.flowChars an0.flowKey
                    (r0 :: rest0) false header0.length
                    (if withIndex then some [] else none) body (some entries)
                    iblock hwr
                  rw [this]
                · simp only [write_file, List.map_cons]
                  rw [List.map_cons] at hwr' hlen
                  rw [hdan, han0]
                  simp only
                  rw [hlen, hh0]
                  simp only
                  rw [hwr']
                  simp only
                  rw [hib]
                  simp only
                  rw [hh1]

/-! ## Claim C1 -/

/-- Claim C1 (amended): for every SFF file produced by `SffWriter.write_file`
(with or without an index, any XML blob) from records whose quality-clip
windows are well-formed (0-based `clip_qual_left ≤ clip_qual_right`),
decoding every read untrimmed with `SffIterator` and encoding them all again
with `write_file` under the same settings reproduces the original file
byte-for-byte, including the index block when one was written. -/
theorem claim_C1 (withIndex : Bool) (xml : List Nat) (records : List SeqRecord)
    (file : List Nat) (h : write_file withIndex xml records = some file)
    (hclip : ∀ r ∈ records, ∀ an ∈ r.annots,
      an.clipQualLeft ≤ an.clipQualRight) :
    ∃ rs, SffIterator false file = some rs ∧
      write_file withIndex xml rs = some file :=
  write_file_roundtrip withIndex xml records file h hclip

set_option maxRecDepth 16384 in
/-- Witness for claim C1 on the concrete two-record file `exFile`. -/
theorem claim_C1_witness :
    write_file true [88] [exRecord, exRecord2] = some exFile ∧
    ∃ rs, SffIterator false exFile = some rs ∧
      write_file true [88] rs = some exFile :=
  ⟨rfl, claim_C1 true [88] [exRecord, exRecord2] exFile rfl (by decide)⟩

set_option maxRecDepth 16384 in
/-- Claim C1 as stated is false: `c1File` is a valid SFF file (its header and
its single read parse, and both the fast Roche-index path and the slow scan
succeed and agree), yet decoding all reads untrimmed and re-encoding them with
the original flow chars, key sequence and XML blob does not reproduce the file
byte-for-byte — `write_record` upper-cases the stored lower-case base. -/
theorem claim_C1_counterexample :
    SffIterator false c1File = some c1Records ∧
    sff_do_slow_index c1File =
      some [([69, 88, 65, 77, 80, 76, 69, 48, 48, 48, 48, 48, 48, 49], 40)] ∧
    sff_read_roche_index c1File =
      some [([69, 88, 65, 77, 80, 76, 69, 48, 48, 48, 48, 48, 48, 49], 40)] ∧
    write_file true [88] c1Records = some c1Out ∧
    c1Out ≠ c1File :=
  ⟨rfl, by decide, by decide, rfl, by decide⟩

/-! ## Trim consistency -/

theorem slice_untrimmed (bs : List Nat) (L R : Nat) :
    (((bs.take L).map lowerByte ++ ((bs.drop L).take (R - L)).map upperByte ++
       (bs.drop R).map lowerByte).drop L).take (R - L) =
      ((bs.drop L).take (R - L)).map upperByte := by
  rw [List.append_assoc]
  by_cases hLR : R ≤ L
  · have h0 : R - L = 0 := by omega
    simp [h0]
  · by_cases hL : L ≤ bs.length
    · have hA : ((bs.take L).map lowerByte).length = L := by
        simp only [List.length_map, List.length_take]
        omega
      rw [List.drop_append_of_le_length (le_of_eq hA.symm),
          List.drop_eq_nil_of_le (le_of_eq hA), List.nil_append]
      by_cases hR : R ≤ bs.length
      · have hM : (((bs.drop L).take (R - L)).map upperByte).length = R - L := by
          simp only [List.length_map, List.length_take, List.length_drop]
          omega
        rw [List.take_append_of_le_length (le_of_eq hM.symm)]
        exact List.take_of_length_le (le_of_eq hM)
      · have hC : (bs.drop R).map lowerByte = [] := by
          rw [List.drop_eq_nil_of_le (by omega : bs.length ≤ R)]
          rfl
        rw [hC, List.append_nil]
        apply List.take_of_length_le
        simp only [List.length_map, List.length_take, List.length_drop]
        omega
    · have hM : ((bs.drop L).take (R - L)).map upperByte = [] := by
        rw [List.drop_eq_nil_of_le (by omega : bs.length ≤ L)]
        simp
      have hC : (bs.drop R).map lowerByte = [] := by
        rw [List.drop_eq_nil_of_le (by omega : bs.length ≤ R)]
        rfl
      have hA : ((bs.take L).map lowerByte).length ≤ L := by
        simp only [List.length_map, List.length_take]
        omega
      rw [hM, hC]
      simp only [List.nil_append, List.append_nil]
      rw [List.drop_eq_nil_of_le hA]
      simp

theorem trim_of_untrimmed (F : Nat) (fc ks s s2 : List Nat) (ru : SeqRecord)
    (an : ReadAnnots)
    (h : sff_read_seq_record F fc ks false s = some (ru, s2))
    (han : ru.annots = some an) :
    sff_read_seq_record F fc ks true s =
      some ({ id := ru.id,
              seq := ((ru.seq.drop an.clipQualLeft).take
                       (an.clipQualRight - an.clipQualLeft)).map upperByte,
              quals := (ru.quals.drop an.clipQualLeft).take
                        (an.clipQualRight - an.clipQualLeft),
              annots := none }, s2) := by
  unfold sff_read_seq_record at h ⊢
  cases e1 : readReadHeaderFixed s with
  | none => rw [e1] at h; cases h
  | some p1 =>
    obtain ⟨hd, s1⟩ := p1
    rw [e1] at h
    simp only at h ⊢
    split at h
    · cases h
    next hcond =>
      rw [if_neg hcond]
      cases e2 : readBytes hd.nameLength s1 with
      | none => rw [e2] at h; cases h
      | some p2 =>
        obtain ⟨name, s3⟩ := p2
        rw [e2] at h
        simp only at h ⊢
        split at h
        · cases h
        next hcond2 =>
          rw [if_neg hcond2]
          cases e3 : checkZeros (hd.readHeaderLength - 16 - hd.nameLength)
              s3 with
          | none => rw [e3] at h; cases h
          | some s4 =>
            rw [e3] at h
            simp only at h ⊢
            cases e4 : readReadPayload F hd.seqLen s4 with
            | none => rw [e4] at h; cases h
            | some p4 =>
              obtain ⟨p, s5⟩ := p4
              rw [e4] at h
              simp only at h ⊢
              injection h with h
              injection h with h1 h2
              subst h2
              subst h1
              simp only [mkDecodedRecord, Bool.false_eq_true, if_false] at han
              injection han with han
              subst han
              simp only [mkDecodedRecord, Bool.false_eq_true, if_false,
                eq_self_iff_true, if_true]
              rw [slice_untrimmed, map_upperByte_upperByte]

/-! ## Claim C4 -/

/-- Claim C4 (amended): decoding a read with trim=true yields exactly the
trim=false sequence and quality sliced to [clip_qual_left, clip_qual_right)
and upper-cased, for ALL clip values — including zero clip bounds, where the
slice [0, 0) makes the trimmed output empty rather than the full upper-cased
sequence. -/
theorem claim_C4 (F : Nat) (fc ks s s2 : List Nat) (ru : SeqRecord)
    (an : ReadAnnots)
    (h : sff_read_seq_record F fc ks false s = some (ru, s2))
    (han : ru.annots = some an) :
    ∃ rt, sff_read_seq_record F fc ks true s = some (rt, s2) ∧
      rt.id = ru.id ∧ rt.annots = none ∧
      rt.seq = ((ru.seq.drop an.clipQualLeft).take
                 (an.clipQualRight - an.clipQualLeft)).map upperByte ∧
      rt.quals = (ru.quals.drop an.clipQualLeft).take
                  (an.clipQualRight - an.clipQualLeft) :=
  ⟨_, trim_of_untrimmed F fc ks s s2 ru an h han, rfl, rfl, rfl, rfl⟩

/-- Witness for claim C4 on the concrete read `c4Bytes`. -/
theorem claim_C4_witness :
    sff_read_seq_record 4 [84, 65, 67, 71] [84, 67, 65, 71] false c4Bytes =
      some (c4Untrimmed, []) ∧
    c4Untrimmed.annots = some c4An ∧
    ∃ rt, sff_read_seq_record 4 [84, 65, 67, 71] [84, 67, 65, 71] true
        c4Bytes = some (rt, []) ∧
      rt.id = c4Untrimmed.id ∧ rt.annots = none ∧
      rt.seq = ((c4Untrimmed.seq.drop c4An.clipQualLeft).take
                 (c4An.clipQualRight - c4An.clipQualLeft)).map upperByte ∧
      rt.quals = (c4Untrimmed.quals.drop c4An.clipQualLeft).take
                  (c4An.clipQualRight - c4An.clipQualLeft) :=
  ⟨rfl, rfl, claim_C4 4 [84, 65, 67, 71] [84, 67, 65, 71] c4Bytes []
    c4Untrimmed c4An rfl rfl⟩

/-- Claim C4 as stated is false in its zero-clip part: on the concrete read
`c4Bytes`, whose stored clip bounds are all 0 and whose sequence is nonempty,
the trimmed decode yields an EMPTY sequence (`seq[0:0]`), not the full
untrimmed sequence upper-cased. -/
theorem claim_C4_counterexample :
    sff_read_seq_record 4 [84, 65, 67, 71] [84, 67, 65, 71] false c4Bytes =
      some (c4Untrimmed, []) ∧
    c4Untrimmed.annots = some c4An ∧
    c4An.clipQualLeft = 0 ∧ c4An.clipQualRight = 0 ∧
    sff_read_seq_record 4 [84, 65, 67, 71] [84, 67, 65, 71] true c4Bytes =
      some (c4Trimmed, []) ∧
    c4Trimmed.seq = [] ∧ c4Untrimmed.seq.map upperByte = [65] ∧
    c4Trimmed.seq ≠ c4Untrimmed.seq.map upperByte :=
  ⟨rfl, rfl, rfl, rfl, rfl, rfl, by decide, by decide⟩

/-! ## Claim C6 -/

/-- Claim C6 (amended): decode subtracts 1 from a positive stored value and
keeps 0 at 0 for the two LEFT clip fields only (`decodeClipLeft`), and encode
adds 1 to a positive value and keeps 0 for the two left fields only
(`encodeClipLeft`); the right clip fields are stored and restored unchanged;
with this convention, writing a record and decoding it back restores all four
in-memory clip values exactly. -/
theorem claim_C6 (v : Nat) (fc ks : List Nat) (r : SeqRecord)
    (bs rest : List Nat) (an : ReadAnnots) (hv : v ≠ 0)
    (h : write_record fc ks r = some bs) (har : r.annots = some an) :
    decodeClipLeft v = v - 1 ∧ decodeClipLeft 0 = 0 ∧
    encodeClipLeft v = v + 1 ∧ encodeClipLeft 0 = 0 ∧
    decodeClipLeft (encodeClipLeft v) = v ∧
    ∃ r' an', sff_read_seq_record fc.length fc ks false (bs ++ rest) =
        some (r', rest) ∧ r'.annots = some an' ∧
      an'.clipQualLeft = an.clipQualLeft ∧
      an'.clipQualRight = an.clipQualRight ∧
      an'.clipAdapterLeft = an.clipAdapterLeft ∧
      an'.clipAdapterRight = an.clipAdapterRight := by
  refine ⟨by simp [decodeClipLeft, hv], rfl, by simp [encodeClipLeft, hv],
    rfl, decodeClipLeft_encodeClipLeft v, ?_⟩
  refine ⟨decodeOf fc ks false r,
    { flowValues := an.flowValues, flowIndex := an.flowIndex,
      flowChars := fc, flowKey := ks,
      clipQualLeft := an.clipQualLeft, clipQualRight := an.clipQualRight,
      clipAdapterLeft := an.clipAdapterLeft,
      clipAdapterRight := an.clipAdapterRight },
    read_of_write_record fc ks r bs rest false h, ?_, rfl, rfl, rfl, rfl⟩
  simp [decodeOf, har, mkDecodedRecord]

/-- Witness for claim C6 at v = 7 and the concrete record `exRecord`. -/
theorem claim_C6_witness :
    decodeClipLeft 7 = 7 - 1 ∧ decodeClipLeft 0 = 0 ∧
    encodeClipLeft 7 = 7 + 1 ∧ encodeClipLeft 0 = 0 ∧
    decodeClipLeft (encodeClipLeft 7) = 7 ∧
    ∃ r' an', sff_read_seq_record 4 [84, 65, 67, 71] [84, 67, 65, 71] false
        (c7RecordBytes ++ []) = some (r', []) ∧ r'.annots = some an' ∧
      an'.clipQualLeft = exAnnots.clipQualLeft ∧
      an'.clipQualRight = exAnnots.clipQualRight ∧
      an'.clipAdapterLeft = exAnnots.clipAdapterLeft ∧
      an'.clipAdapterRight = exAnnots.clipAdapterRight := by
  have := claim_C6 7 [84, 65, 67, 71] [84, 67, 65, 71] exRecord
    c7RecordBytes [] exAnnots (by decide) rfl rfl
  simpa using this

/-- Claim C6 as stated is false: decoding the concrete read `c6Bytes`, whose
stored clip_qual_right field is the positive value 5 (bytes 10-11 of the
literal), yields an in-memory clip_qual_right of 5, not 5 - 1: the decoder
never subtracts 1 from the right clip fields. -/
theorem claim_C6_counterexample :
    sff_read_seq_record 4 [84, 65, 67, 71] [84, 67, 65, 71] false c6Bytes =
      some (c6Rec, []) ∧
    c6Rec.annots = some c6An ∧
    c6An.clipQualRight = 5 ∧ c6An.clipQualRight ≠ 5 - 1 :=
  ⟨rfl, rfl, rfl, by decide⟩

/-! ## Slow scan over writer output -/

theorem write_record_length_eq (fc ks : List Nat) (r : SeqRecord)
    (bs : List Nat) (h : write_record fc ks r = some bs) :
    bs.length = 16 + r.id.length + (8 - (16 + r.id.length) % 8) % 8 +
      (2 * fc.length + 3 * r.seq.length +
       (8 - (2 * fc.length + 3 * r.seq.length) % 8) % 8) := by
  simp only [write_record] at h
  split at h
  · cases h
  · split at h
    · rename_i an heq hcond
      obtain ⟨hfk, hfc, hfl, hfv, hfil, hfi, hql, hq, hrest⟩ := hcond
      injection h with h
      subst h
      simp [u16be, u32be, packU16s_length, hfl, hfil, hql]
      omega
    · cases h

theorem slow_step_of_write_record (fc ks : List Nat) (r : SeqRecord)
    (bs rest : List Nat) (n pos : Nat)
    (out : List (List Nat × Nat) × Nat)
    (h : write_record fc ks r = some bs)
    (hcont : slowIndexAux fc.length n (pos + bs.length) rest = some out) :
    slowIndexAux fc.length (n + 1) pos (bs ++ rest) =
      some ((r.id, pos) :: out.1, out.2) := by
  have hlen := write_record_length_eq fc ks r bs h
  simp only [write_record] at h
  split at h
  · cases h
  next an har =>
    split at h
    case isFalse => cases h
    case isTrue hcond =>
      obtain ⟨hfk, hfc, hflen, hfv, hfilen, hfi, hqlen, hq, hrhl, hnl, hsl,
              hc1, hc2, hc3, hc4⟩ := hcond
      injection h with h
      subst h
      have hg1 : ¬(16 + r.id.length + (8 - (16 + r.id.length) % 8) % 8 < 10 ∨
          (16 + r.id.length + (8 - (16 + r.id.length) % 8) % 8) % 8 ≠ 0) := by
        omega
      have hg2 : ¬(16 + r.id.length + (8 - (16 + r.id.length) % 8) % 8 <
          16 + r.id.length) := by omega
      have hsub : 16 + r.id.length + (8 - (16 + r.id.length) % 8) % 8 - 16 -
          r.id.length = (8 - (16 + r.id.length) % 8) % 8 := by omega
      have hplen : (packU16s an.flowValues ++ (an.flowIndex ++
          ((List.map upperByte r.seq) ++ r.quals))).length =
          2 * fc.length + 3 * (List.map upperByte r.seq).length := by
        simp [packU16s_length, hflen, hfilen, hqlen]
        omega
      have hdrop : (packU16s an.flowValues ++ (an.flowIndex ++
          ((List.map upperByte r.seq) ++ (r.quals ++
           (List.replicate ((8 - (2 * fc.length +
              3 * (List.map upperByte r.seq).length) % 8) % 8) 0 ++
            rest))))).drop
            (2 * fc.length + 3 * (List.map upperByte r.seq).length) =
          List.replicate ((8 - (2 * fc.length +
            3 * (List.map upperByte r.seq).length) % 8) % 8) 0 ++ rest := by
        rw [show packU16s an.flowValues ++ (an.flowIndex ++
            ((List.map upperByte r.seq) ++ (r.quals ++
             (List.replicate ((8 - (2 * fc.length +
                3 * (List.map upperByte r.seq).length) % 8) % 8) 0 ++
              rest)))) =
            (packU16s an.flowValues ++ (an.flowIndex ++
              ((List.map upperByte r.seq) ++ r.quals))) ++
            (List.replicate ((8 - (2 * fc.length +
               3 * (List.map upperByte r.seq).length) % 8) % 8) 0 ++ rest) by
          simp [List.append_assoc]]
        rw [← hplen, List.drop_left]
      have harg : pos + (16 + r.id.length + (8 - (16 + r.id.length) % 8) % 8) +
          (2 * fc.length + 3 * (List.map upperByte r.seq).length) +
          (8 - (2 * fc.length + 3 * (List.map upperByte r.seq).length) % 8) % 8 =
          pos + (16 + r.id.length + (8 - (16 + r.id.length) % 8) % 8 +
            (2 * fc.length + 3 * r.seq.length +
             (8 - (2 * fc.length + 3 * r.seq.length) % 8) % 8)) := by
        simp only [List.length_map]
        omega
      simp only [slowIndexAux, List.append_assoc,
        readReadHeaderFixed_bytes _ _ _ _ _ _ _ _ hrhl hnl hsl hc1 hc2 hc3 hc4,
        hg1, hg2, hsub, if_false, readBytes_exact' r.id.length r.id _ rfl,
        checkZeros_replicate, hdrop]
      rw [harg, ← hlen, hcont]

theorem writeRecordsAux_idx_none (fc ks : List Nat) (recs : List SeqRecord)
    (pos : Nat) (body : List Nat) (idxF : Option (List (List Nat × Nat)))
    (h : writeRecordsAux fc ks pos none recs = some (body, idxF)) :
    idxF = none := by
  induction recs generalizing pos body with
  | nil =>
    simp only [writeRecordsAux] at h
    injection h with h
    injection h with h1 h2
    exact h2.symm
  | cons r rs ih =>
    obtain ⟨bs, body', hw, hb, hrec⟩ :=
      writeRecordsAux_cons_inv _ _ _ _ _ _ _ _ h
    exact ih (pos + bs.length) body' hrec

theorem slow_of_writeRecordsAux (fc ks : List Nat) (recs : List SeqRecord)
    (pos : Nat) (acc : List (List Nat × Nat)) (body : List Nat)
    (entriesAll : List (List Nat × Nat))
    (h : writeRecordsAux fc ks pos (some acc) recs =
      some (body, some entriesAll)) :
    ∃ newEntries, entriesAll = acc ++ newEntries ∧
      newEntries.length = recs.length ∧
      (∀ e ∈ newEntries, e.1.length = 14 ∧ pos ≤ e.2 ∧
        e.2 < pos + body.length) ∧
      ∀ rest, slowIndexAux fc.length recs.length pos (body ++ rest) =
        some (newEntries, pos + body.length) := by
  induction recs generalizing pos acc body with
  | nil =>
    simp only [writeRecordsAux] at h
    injection h with h
    injection h with h1 h2
    subst h1
    injection h2 with h2
    subst h2
    exact ⟨[], by simp, rfl, by simp, fun rest => by simp [slowIndexAux]⟩
  | cons r rs ih =>
    obtain ⟨bs, body', hw, hb, hrec⟩ :=
      writeRecordsAux_cons_inv _ _ _ _ _ _ _ _ h
    subst hb
    by_cases h14 : r.id.length = 14
    · rw [show idxUpdate r pos (some acc) = some (acc ++ [(r.id, pos)]) by
        simp [idxUpdate, h14]] at hrec
      obtain ⟨newE, hall, hlenE, hbound, hslow⟩ :=
        ih (pos + bs.length) (acc ++ [(r.id, pos)]) body' hrec
      have hbs0 : 0 < bs.length := by
        have := write_record_length_eq fc ks r bs hw
        omega
      refine ⟨(r.id, pos) :: newE, by simp [hall], by simp [hlenE], ?_, ?_⟩
      · intro e he
        cases he with
        | head =>
          refine ⟨h14, le_refl pos, ?_⟩
          simp only [List.length_append]
          omega
        | tail _ he =>
          obtain ⟨he1, he2, he3⟩ := hbound e he
          refine ⟨he1, by omega, ?_⟩
          simp only [List.length_append]
          omega
      · intro rest
        rw [List.append_assoc, List.length_cons]
        have hstep := slow_step_of_write_record fc ks r bs (body' ++ rest)
          rs.length pos (newE, pos + bs.length + body'.length) hw
          (hslow rest)
        rw [hstep]
        simp only [List.length_append]
        congr 2
        omega
    · rw [show idxUpdate r pos (some acc) = none by
        simp [idxUpdate, h14]] at hrec
      have := writeRecordsAux_idx_none _ _ _ _ _ _ hrec
      cases this

/-! ## Entry ordering -/

theorem listLe_total : ∀ a b : List Nat, listLe a b = true ∨ listLe b a = true
  | [], _ => Or.inl rfl
  | _ :: _, [] => Or.inr rfl
  | a :: as, b :: bs => by
    simp only [listLe]
    rcases Nat.lt_trichotomy a b with hab | hab | hab
    · left
      rw [if_pos hab]
    · subst hab
      rw [if_neg (Nat.lt_irrefl a), if_neg (Nat.lt_irrefl a),
          if_neg (Nat.lt_irrefl a), if_neg (Nat.lt_irrefl a)]
      exact listLe_total as bs
    · right
      rw [if_pos hab]

theorem listLe_antisymm : ∀ a b : List Nat,
    listLe a b = true → listLe b a = true → a = b
  | [], [], _, _ => rfl
  | [], _ :: _, _, h2 => by simp [listLe] at h2
  | _ :: _, [], h1, _ => by simp [listLe] at h1
  | a :: as, b :: bs, h1, h2 => by
    simp only [listLe] at h1 h2
    rcases Nat.lt_trichotomy a b with hab | hab | hab
    · rw [if_neg (by omega), if_pos hab] at h2
      cases h2
    · subst hab
      rw [if_neg (Nat.lt_irrefl a), if_neg (Nat.lt_irrefl a)] at h1 h2
      rw [listLe_antisymm as bs h1 h2]
    · rw [if_neg (by omega), if_pos hab] at h1
      cases h1

theorem listLe_trans : ∀ a b c : List Nat,
    listLe a b = true → listLe b c = true → listLe a c = true
  | [], _, _, _, _ => rfl
  | _ :: _, [], _, h1, _ => by simp [listLe] at h1
  | _ :: _, _ :: _, [], _, h2 => by simp [listLe] at h2
  | a :: as, b :: bs, c :: cs, h1, h2 => by
    simp only [listLe] at h1 h2 ⊢
    rcases Nat.lt_trichotomy a b with hab | hab | hab
    · rcases Nat.lt_trichotomy b c with hbc | hbc | hbc
      · rw [if_pos (by omega)]
      · subst hbc
        rw [if_pos hab]
      · rw [if_neg (by omega), if_pos hbc] at h2
        cases h2
    · subst hab
      rw [if_neg (Nat.lt_irrefl a), if_neg (Nat.lt_irrefl a)] at h1
      rcases Nat.lt_trichotomy a c with hac | hac | hac
      · rw [if_pos hac]
      · subst hac
        rw [if_neg (Nat.lt_irrefl a), if_neg (Nat.lt_irrefl a)] at h2 ⊢
        exact listLe_trans as bs cs h1 h2
      · rw [if_neg (by omega), if_pos hac] at h2
        cases h2
    · rw [if_neg (by omega), if_pos hab] at h1
      cases h1

theorem entryR_total : ∀ e1 e2 : List Nat × Nat, entryR e1 e2 ∨ entryR e2 e1 := by
  intro e1 e2
  simp only [entryR, entryLe]
  by_cases h : e1.1 = e2.1
  · rw [if_pos h, if_pos h.symm]
    simp only [decide_eq_true_eq]
    omega
  · rw [if_neg h, if_neg (fun hh => h hh.symm)]
    rcases listLe_total e1.1 e2.1 with ht | ht
    · exact Or.inl ht
    · exact Or.inr ht

theorem entryR_trans : ∀ e1 e2 e3 : List Nat × Nat,
    entryR e1 e2 → entryR e2 e3 → entryR e1 e3 := by
  intro e1 e2 e3 h1 h2
  simp only [entryR, entryLe] at h1 h2 ⊢
  by_cases h12 : e1.1 = e2.1
  · by_cases h23 : e2.1 = e3.1
    · rw [if_pos h12] at h1
      rw [if_pos h23] at h2
      rw [if_pos (h12.trans h23)]
      simp only [decide_eq_true_eq] at h1 h2 ⊢
      omega
    · rw [if_neg h23] at h2
      rw [if_neg (h12 ▸ h23), h12]
      exact h2
  · by_cases h23 : e2.1 = e3.1
    · rw [if_neg h12] at h1
      rw [if_neg (h23 ▸ h12), ← h23]
      exact h1
    · rw [if_neg h12] at h1
      rw [if_neg h23] at h2
      by_cases h13 : e1.1 = e3.1
      · exact absurd (listLe_antisymm _ _ h1 (h13 ▸ h2)) h12
      · rw [if_neg h13]
        exact listLe_trans _ _ _ h1 h2

instance : IsTotal (List Nat × Nat) entryR := ⟨entryR_total⟩

instance : IsTrans (List Nat × Nat) entryR := ⟨entryR_trans⟩

theorem sortEntries_idem (l : List (List Nat × Nat)) :
    sortEntries (sortEntries l) = sortEntries l :=
  List.Sorted.insertionSort_eq (List.sorted_insertionSort entryR l)

theorem mem_sortEntries {e : List Nat × Nat} {l : List (List Nat × Nat)}
    (h : e ∈ sortEntries l) : e ∈ l :=
  (sortEntries_perm l).mem_iff.mp h

/-! ## Fast index over writer output -/

theorem decode_encode_offset_all (x : Nat) :
    decode_offset (encode_offset x).1 (encode_offset x).2.1
      (encode_offset x).2.2.1 (encode_offset x).2.2.2 = x := by
  rw [encode_offset_eq]
  simp only [decode_offset]
  omega

theorem readIndexHeaderFixed_bytes (m x d : Nat) (ver tail : List Nat)
    (hm : m < 4294967296) (hver : ver.length = 4)
    (hx : x < 4294967296) (hd : d < 4294967296) :
    readIndexHeaderFixed (u32be m ++ (ver ++ (u32be x ++ (u32be d ++ tail)))) =
      some ({ magicNumber := m, version := ver, xmlSize := x,
              dataSize := d }, tail) := by
  simp [readIndexHeaderFixed, readU32_u32be, readBytes_exact' 4 ver _ hver,
        hm, hx, hd, Option.bind]

theorem rocheEntries_of_entryBytes (hlen ioff : Nat) :
    ∀ (es : List (List Nat × Nat)) (tail : List Nat),
    (∀ e ∈ es, e.1.length = 14) →
    (∀ e ∈ es, hlen ≤ e.2 ∧ e.2 ≤ ioff) →
    rocheEntries hlen ioff es.length ((es.map entryBytes).flatten ++ tail) =
      some es
  | [], tail, _, _ => by simp [rocheEntries]
  | e :: es, tail, hnames, hrange => by
    have hn : e.1.length = 14 := (hnames e (List.mem_cons_self e es)).symm ▸ rfl
    have hname14 : (e.1 ++ List.replicate 14 0).take 14 = e.1 := by
      rw [List.take_append_of_le_length (by omega : 14 ≤ e.1.length)]
      exact List.take_of_length_le (by omega)
    have hblen : (entryBytes e).length = 20 := entryBytes_length e
    simp only [List.map_cons, List.flatten_cons, List.length_cons,
               List.append_assoc, rocheEntries]
    rw [readBytes_exact' 20 (entryBytes e) _ hblen]
    simp only [entryBytes, hname14]
    rw [show (e.1 ++ [0, (encode_offset e.2).1, (encode_offset e.2).2.1,
          (encode_offset e.2).2.2.1, (encode_offset e.2).2.2.2, 255]).drop 14 =
        [0, (encode_offset e.2).1, (encode_offset e.2).2.1,
         (encode_offset e.2).2.2.1, (encode_offset e.2).2.2.2, 255] by
      rw [List.drop_append_of_le_length (by omega : 14 ≤ e.1.length),
          List.drop_eq_nil_of_le (by omega : e.1.length ≤ 14), List.nil_append]]
    simp only [decode_encode_offset_all]
    rw [if_neg (by simp)]
    rw [if_neg (by simp)]
    rw [if_neg (not_not_intro (hrange e (List.mem_cons_self e es)))]
    rw [rocheEntries_of_entryBytes hlen ioff es tail
          (fun x hx => hnames x (List.mem_cons_of_mem e hx))
          (fun x hx => hrange x (List.mem_cons_of_mem e hx))]
    rw [show (e.1 ++ [0, (encode_offset e.2).1, (encode_offset e.2).2.1,
          (encode_offset e.2).2.2.1, (encode_offset e.2).2.2.2, 255]).take 14 =
        e.1 by
      rw [List.take_append_of_le_length (by omega : 14 ≤ e.1.length)]
      exact List.take_of_length_le (by omega)]

theorem writeRecordsAux_body_mod8 (fc ks : List Nat) (recs : List SeqRecord)
    (pos : Nat) (idx : Option (List (List Nat × Nat))) (body : List Nat)
    (idxF : Option (List (List Nat × Nat)))
    (h : writeRecordsAux fc ks pos idx recs = some (body, idxF)) :
    body.length % 8 = 0 := by
  induction recs generalizing pos idx body with
  | nil =>
    simp only [writeRecordsAux] at h
    injection h with h
    injection h with h1 h2
    subst h1
    rfl
  | cons r rs ih =>
    obtain ⟨bs, body', hw, hb, hrec⟩ :=
      writeRecordsAux_cons_inv _ _ _ _ _ _ _ _ h
    subst hb
    have h1 := write_record_length_mod8 _ _ _ _ hw
    have h2 := ih (pos + bs.length) _ body' hrec
    simp only [List.length_append]
    omega

theorem writeRecordsAux_idx_some (fc ks : List Nat) (recs : List SeqRecord)
    (pos : Nat) (acc : List (List Nat × Nat)) (body : List Nat)
    (idxF : Option (List (List Nat × Nat)))
    (h : writeRecordsAux fc ks pos (some acc) recs = some (body, idxF))
    (h14 : ∀ r ∈ recs, r.id.length = 14) :
    ∃ es, idxF = some es := by
  induction recs generalizing pos acc body with
  | nil =>
    simp only [writeRecordsAux] at h
    injection h with h
    injection h with h1 h2
    exact ⟨acc, h2.symm⟩
  | cons r rs ih =>
    obtain ⟨bs, body', hw, hb, hrec⟩ :=
      writeRecordsAux_cons_inv _ _ _ _ _ _ _ _ h
    rw [show idxUpdate r pos (some acc) = some (acc ++ [(r.id, pos)]) by
      simp [idxUpdate, h14 r (List.mem_cons_self r rs)]] at hrec
    exact ih (pos + bs.length) _ body' hrec
      (fun x hx => h14 x (List.mem_cons_of_mem r hx))

theorem find_roche_index_of_parsed (file : List Nat) (hdr : SFFHeader)
    (rest : List Nat) (ih : IndexHeaderFixed) (tail : List Nat)
    (hparse : sff_file_header file = some (hdr, rest))
    (hoff : hdr.indexOffset ≠ 0)
    (ihp : readIndexHeaderFixed (file.drop hdr.indexOffset) = some (ih, tail))
    (hm : ih.magicNumber = 778921588) (hv : ih.version = [49, 46, 48, 48])
    (hil : hdr.indexLength = 16 + ih.xmlSize + ih.dataSize)
    (hds : ih.dataSize = 20 * hdr.numberOfReads) :
    sff_find_roche_index file =
      some { numberOfReads := hdr.numberOfReads,
             headerLength := hdr.headerLength,
             indexOffset := hdr.indexOffset, indexLength := hdr.indexLength,
             xmlOffset := hdr.indexOffset + 16, xmlSize := ih.xmlSize,
             readIndexOffset := hdr.indexOffset + 16 + ih.xmlSize,
             readIndexSize := ih.dataSize } := by
  simp only [sff_find_roche_index, hparse, ihp]
  rw [if_neg hoff, if_neg (not_not_intro hm),
      if_neg (not_not_intro hv), if_neg (not_not_intro hil),
      if_neg (not_not_intro hds)]

theorem read_roche_index_of_find (file : List Nat) (info : RocheIndexInfo)
    (es : List (List Nat × Nat))
    (hfind : sff_find_roche_index file = some info)
    (hent : rocheEntries info.headerLength info.indexOffset info.numberOfReads
      (file.drop info.readIndexOffset) = some es) :
    sff_read_roche_index file = some es := by
  simp only [sff_read_roche_index, hfind, hent]

theorem do_slow_index_of_parsed (file : List Nat) (hdr : SFFHeader)
    (rest : List Nat) (es : List (List Nat × Nat)) (posEnd : Nat)
    (hparse : sff_file_header file = some (hdr, rest))
    (haux : slowIndexAux hdr.numberOfFlowsPerRead hdr.numberOfReads
      hdr.headerLength rest = some (es, posEnd))
    (hmod : posEnd % 8 = 0) :
    sff_do_slow_index file = some es := by
  simp only [sff_do_slow_index, hparse, haux]
  rw [if_neg (not_not_intro hmod)]

theorem drop_append_plus (a b : List Nat) (n : Nat) :
    (a ++ b).drop (a.length + n) = b.drop n := by
  induction a with
  | nil => simp
  | cons x xs ih =>
    rw [List.cons_append, List.length_cons,
        show xs.length + 1 + n = xs.length + n + 1 by omega,
        List.drop_succ_cons, ih]

/-- Claim C2 (amended): for every SFF file produced by `write_file` with an
index block and records whose names are exactly 14 bytes long (the Roche
convention the index format requires), the fast Roche-index reader
`sff_read_roche_index` and the slow full-file scan `sff_do_slow_index` both
succeed and yield the same sorted list of (name, offset) pairs. -/
theorem claim_C2 (xml : List Nat) (records : List SeqRecord)
    (file : List Nat) (h : write_file true xml records = some file)
    (h14 : ∀ r ∈ records, r.id.length = 14) :
    ∃ fast slow, sff_read_roche_index file = some fast ∧
      sff_do_slow_index file = some slow ∧
      sortEntries fast = sortEntries slow := by
  cases records with
  | nil => simp [write_file] at h
  | cons r0 rest0 =>
    simp only [write_file] at h
    cases han0 : r0.annots with
    | none => rw [han0] at h; cases h
    | some an0 =>
      rw [han0] at h
      simp only at h
      cases hh0 : write_header 0 0 (r0 :: rest0).length an0.flowChars
          an0.flowKey with
      | none => rw [hh0] at h; cases h
      | some header0 =>
        rw [hh0] at h
        simp only at h
        simp only [if_true] at h
        cases hwr : writeRecordsAux an0.flowChars an0.flowKey header0.length
            (some []) (r0 :: rest0) with
        | none => rw [hwr] at h; cases h
        | some pr =>
          obtain ⟨body, idxF⟩ := pr
          rw [hwr] at h
          simp only at h
          cases idxF with
          | none =>
            obtain ⟨es, hes⟩ := writeRecordsAux_idx_some _ _ _ _ _ _ _ hwr h14
            cases hes
          | some entries =>
            simp only at h
            cases hib : write_index_block entries xml with
            | none => rw [hib] at h; cases h
            | some pib =>
              obtain ⟨iblock, il⟩ := pib
              rw [hib] at h
              simp only at h
              cases hh1 : write_header (header0.length + body.length) il
                  (r0 :: rest0).length an0.flowChars an0.flowKey with
              | none => rw [hh1] at h; cases h
              | some header1 =>
                rw [hh1] at h
                simp only at h
                injection h with h
                subst h
                obtain ⟨newE, hallE, hlenE, hboundE, hslowE⟩ :=
                  slow_of_writeRecordsAux _ _ _ _ _ _ _ hwr
                rw [List.nil_append] at hallE
                subst hallE
                have hh0len := write_header_length _ _ _ _ _ _ hh0
                have hh1len := write_header_length _ _ _ _ _ _ hh1
                have hshape := write_index_block_shape _ _ _ _ hib
                have hxor : header0.length + body.length = 0 ↔ il = 0 := by
                  constructor <;> intro hz <;> omega
                simp only [write_index_block] at hib
                split at hib
                case isFalse => cases hib
                case isTrue hg =>
                obtain ⟨hgx, hgd, hgdig⟩ := hg
                injection hib with hib
                injection hib with hib1 hib2
                subst hib1
                subst hib2
                have hbody8 := writeRecordsAux_body_mod8 _ _ _ _ _ _ _ hwr
                have hparse := read_of_write_header _ _ _ _ _ header1
                  (body ++
                   (u32be 778921588 ++ ([49, 46, 48, 48] ++
                    (u32be xml.length ++ (u32be (entries.length * 20) ++
                     (xml ++
                      ((List.map entryBytes (sortEntries entries)).flatten ++
                       List.replicate
                         ((8 - (16 + xml.length + entries.length * 20) % 8) % 8)
                         0))))))) hh1 hxor
                have hdrop1 : ((header1 ++ (body ++
                    (u32be 778921588 ++ ([49, 46, 48, 48] ++
                     (u32be xml.length ++ (u32be (entries.length * 20) ++
                      (xml ++
                       ((List.map entryBytes (sortEntries entries)).flatten ++
                        List.replicate
                          ((8 - (16 + xml.length + entries.length * 20) % 8) % 8)
                          0)))))))).drop (header0.length + body.length)) =
                    u32be 778921588 ++ ([49, 46, 48, 48] ++
                     (u32be xml.length ++ (u32be (entries.length * 20) ++
                      (xml ++
                       ((List.map entryBytes (sortEntries entries)).flatten ++
                        List.replicate
                          ((8 - (16 + xml.length + entries.length * 20) % 8) % 8)
                          0))))) := by
                  rw [show header0.length + body.length =
                      header1.length + body.length by omega,
                    drop_append_plus,
                    show body.length = body.length + 0 by omega,
                    drop_append_plus, List.drop_zero]
                have hdrop2 : ((header1 ++ (body ++
                    (u32be 778921588 ++ ([49, 46, 48, 48] ++
                     (u32be xml.length ++ (u32be (entries.length * 20) ++
                      (xml ++
                       ((List.map entryBytes (sortEntries entries)).flatten ++
                        List.replicate
                          ((8 - (16 + xml.length + entries.length * 20) % 8) % 8)
                          0)))))))).drop
                      (header0.length + body.length + 16 + xml.length)) =
                    (List.map entryBytes (sortEntries entries)).flatten ++
                    List.replicate
                      ((8 - (16 + xml.length + entries.length * 20) % 8) % 8)
                      0 := by
                  rw [show header0.length + body.length + 16 + xml.length =
                      header1.length + (body.length + (16 + xml.length)) by
                      omega,
                    drop_append_plus, drop_append_plus]
                  rw [show u32be 778921588 ++ ([49, 46, 48, 48] ++
                     (u32be xml.length ++ (u32be (entries.length * 20) ++
                      (xml ++
                       ((List.map entryBytes (sortEntries entries)).flatten ++
                        List.replicate
                          ((8 - (16 + xml.length + entries.length * 20) % 8) % 8)
                          0))))) =
                     (u32be 778921588 ++ ([49, 46, 48, 48] ++
                      (u32be xml.length ++ (u32be (entries.length * 20) ++
                       xml)))) ++
                     ((List.map entryBytes (sortEntries entries)).flatten ++
                      List.replicate
                        ((8 - (16 + xml.length + entries.length * 20) % 8) % 8)
                        0) by simp [List.append_assoc]]
                  rw [show 16 + xml.length =
                      (u32be 778921588 ++ ([49, 46, 48, 48] ++
                       (u32be xml.length ++ (u32be (entries.length * 20) ++
                        xml)))).length by
                      simp only [u32be, List.length_append, List.length_cons,
                        List.length_nil]
                      omega,
                    List.drop_left]
                have ihp : readIndexHeaderFixed ((header1 ++ (body ++
                    (u32be 778921588 ++ ([49, 46, 48, 48] ++
                     (u32be xml.length ++ (u32be (entries.length * 20) ++
                      (xml ++
                       ((List.map entryBytes (sortEntries entries)).flatten ++
                        List.replicate
                          ((8 - (16 + xml.length + entries.length * 20) % 8) % 8)
                          0)))))))).drop (header0.length + body.length)) =
                    some ({ magicNumber := 778921588,
                            version := [49, 46, 48, 48],
                            xmlSize := xml.length,
                            dataSize := entries.length * 20 },
                      xml ++
                       ((List.map entryBytes (sortEntries entries)).flatten ++
                        List.replicate
                          ((8 - (16 + xml.length + entries.length * 20) % 8) % 8)
                          0)) := by
                  rw [hdrop1]
                  exact readIndexHeaderFixed_bytes 778921588 xml.length
                    (entries.length * 20) [49, 46, 48, 48] _
                    (by omega) rfl hgx hgd
                have hent : rocheEntries
                    (31 + an0.flowChars.length + an0.flowKey.length +
                      (8 - (31 + an0.flowChars.length +
                        an0.flowKey.length) % 8) % 8)
                    (header0.length + body.length)
                    (r0 :: rest0).length
                    ((header1 ++ (body ++
                      (u32be 778921588 ++ ([49, 46, 48, 48] ++
                     (u32be xml.length ++ (u32be (entries.length * 20) ++
                      (xml ++
                       ((List.map entryBytes (sortEntries entries)).flatten ++
                        List.replicate
                          ((8 - (16 + xml.length + entries.length * 20) % 8) % 8)
                          0)))))))).drop
                        (header0.length + body.length + 16 + xml.length)) =
                    some (sortEntries entries) := by
                  rw [hdrop2,
                    show (r0 :: rest0).length = (sortEntries entries).length
                      by rw [sortEntries_length]; omega]
                  exact rocheEntries_of_entryBytes _ _ (sortEntries entries) _
                    (fun e he => (hboundE e (mem_sortEntries he)).1)
                    (fun e he => by
                      have := hboundE e (mem_sortEntries he)
                      constructor <;> omega)
                have haux : slowIndexAux an0.flowChars.length
                    (r0 :: rest0).length
                    (31 + an0.flowChars.length + an0.flowKey.length +
                      (8 - (31 + an0.flowChars.length +
                        an0.flowKey.length) % 8) % 8)
                    (body ++
                      (u32be 778921588 ++ ([49, 46, 48, 48] ++
                     (u32be xml.length ++ (u32be (entries.length * 20) ++
                      (xml ++
                       ((List.map entryBytes (sortEntries entries)).flatten ++
                        List.replicate
                          ((8 - (16 + xml.length + entries.length * 20) % 8) % 8)
                          0))))))) =
                    some (entries,
                      31 + an0.flowChars.length + an0.flowKey.length +
                        (8 - (31 + an0.flowChars.length +
                          an0.flowKey.length) % 8) % 8 + body.length) := by
                  have := hslowE (u32be 778921588 ++ ([49, 46, 48, 48] ++
                     (u32be xml.length ++ (u32be (entries.length * 20) ++
                      (xml ++
                       ((List.map entryBytes (sortEntries entries)).flatten ++
                        List.replicate
                          ((8 - (16 + xml.length + entries.length * 20) % 8) % 8)
                          0))))))
                  rw [hh0len] at this
                  exact this
                refine ⟨sortEntries entries, entries, ?_, ?_, sortEntries_idem entries⟩
                · simp only [List.append_assoc]
                  exact read_roche_index_of_find _
                    { numberOfReads := (r0 :: rest0).length,
                      headerLength := 31 + an0.flowChars.length +
                        an0.flowKey.length + (8 - (31 + an0.flowChars.length +
                        an0.flowKey.length) % 8) % 8,
                      indexOffset := header0.length + body.length,
                      indexLength := 16 + xml.length + entries.length * 20,
                      xmlOffset := header0.length + body.length + 16,
                      xmlSize := xml.length,
                      readIndexOffset := header0.length + body.length + 16 +
                        xml.length,
                      readIndexSize := entries.length * 20 }
                    (sortEntries entries)
                    (find_roche_index_of_parsed _ _ _
                      { magicNumber := 778921588, version := [49, 46, 48, 48],
                        xmlSize := xml.length,
                        dataSize := entries.length * 20 } _
                      hparse (show header0.length + body.length ≠ 0 by omega)
                      ihp rfl rfl rfl
                      (show entries.length * 20 = 20 * (r0 :: rest0).length
                        by omega))
                    hent
                · simp only [List.append_assoc]
                  exact do_slow_index_of_parsed _ _ _ entries
                    (31 + an0.flowChars.length + an0.flowKey.length +
                      (8 - (31 + an0.flowChars.length +
                        an0.flowKey.length) % 8) % 8 + body.length)
                    hparse haux (by omega)

set_option maxRecDepth 16384 in
/-- Witness for claim C2 on the concrete two-record file `exFile`. -/
theorem claim_C2_witness :
    write_file true [88] [exRecord, exRecord2] = some exFile ∧
    ∃ fast slow, sff_read_roche_index exFile = some fast ∧
      sff_do_slow_index exFile = some slow ∧
      sortEntries fast = sortEntries slow :=
  ⟨rfl, claim_C2 [88] [exRecord, exRecord2] exFile rfl (by decide)⟩

set_option maxRecDepth 16384 in
/-- Claim C2 as stated is false: `c2File` contains a valid embedded Roche
index (the fast path parses it), and the slow scan also succeeds, but the two
paths disagree even after sorting — the index pairs name ...2 with offset 40
and name ...1 with offset 96, while the actual records in the file are laid
out the other way around. -/
theorem claim_C2_counterexample :
    sff_read_roche_index c2File =
      some [([69, 88, 65, 77, 80, 76, 69, 48, 48, 48, 48, 48, 48, 50], 40),
            ([69, 88, 65, 77, 80, 76, 69, 48, 48, 48, 48, 48, 48, 49], 96)] ∧
    sff_do_slow_index c2File =
      some [([69, 88, 65, 77, 80, 76, 69, 48, 48, 48, 48, 48, 48, 49], 40),
            ([69, 88, 65, 77, 80, 76, 69, 48, 48, 48, 48, 48, 48, 50], 96)] ∧
    sortEntries
        [([69, 88, 65, 77, 80, 76, 69, 48, 48, 48, 48, 48, 48, 50], 40),
         ([69, 88, 65, 77, 80, 76, 69, 48, 48, 48, 48, 48, 48, 49], 96)] ≠
      sortEntries
        [([69, 88, 65, 77, 80, 76, 69, 48, 48, 48, 48, 48, 48, 49], 40),
         ([69, 88, 65, 77, 80, 76, 69, 48, 48, 48, 48, 48, 48, 50], 96)] :=
  ⟨by decide, by decide, by decide⟩

theorem readBytes_inv (n : Nat) (s d s' : List Nat)
    (h : readBytes n s = some (d, s')) :
    d = s.take n ∧ s' = s.drop n ∧ n ≤ s.length := by
  simp only [readBytes] at h
  split at h
  case isTrue hle =>
    simp only [Option.some.injEq, Prod.mk.injEq] at h
    exact ⟨h.1.symm, h.2.symm, hle⟩
  case isFalse => cases h

theorem exists_six (l : List Nat) (h : l.length = 6) :
    ∃ a b c d e f, l = [a, b, c, d, e, f] := by
  rcases l with _ | ⟨a, _ | ⟨b, _ | ⟨c, _ | ⟨d, _ | ⟨e, _ | ⟨f, _ | ⟨g, t⟩⟩⟩⟩⟩⟩⟩
  · simp at h
  · simp at h
  · simp at h
  · simp at h
  · simp at h
  · simp at h
  · exact ⟨a, b, c, d, e, f, rfl⟩
  · simp [List.length_cons] at h

/-- Claim C8: whenever the fast Roche-index entry reader `rocheEntries`
succeeds, it yields exactly one entry per declared read, every decoded offset
lies between `header_length` and `index_offset` (the read-record region), and
every 20-byte source entry has a NUL byte at position 14 (after the name) and
the sentinel 255 at position 19; any entry violating one of these checks makes
the reader fail instead. -/
theorem claim_C8 (hl io : Nat) (n : Nat) (s : List Nat)
    (es : List (List Nat × Nat)) (h : rocheEntries hl io n s = some es) :
    es.length = n ∧ (∀ e ∈ es, hl ≤ e.2 ∧ e.2 ≤ io) ∧
    (∀ i, i < n → s[20 * i + 14]? = some 0 ∧ s[20 * i + 19]? = some 255) := by
  induction n generalizing s es with
  | zero =>
    simp only [rocheEntries] at h
    injection h with h
    subst h
    exact ⟨rfl, by simp, fun i hi => absurd hi (Nat.not_lt_zero i)⟩
  | succ m ih =>
    simp only [rocheEntries] at h
    cases hrb : readBytes 20 s with
    | none => rw [hrb] at h; cases h
    | some pr =>
      obtain ⟨data, s'⟩ := pr
      rw [hrb] at h
      simp only at h
      obtain ⟨hdata, hs', hsl⟩ := readBytes_inv 20 s data s' hrb
      have hdl : data.length = 20 := by
        rw [hdata, List.length_take]; omega
      have hd6 : (data.drop 14).length = 6 := by
        rw [List.length_drop, hdl]
      obtain ⟨x0, o3, o2, o1, o0, x255, hdp⟩ := exists_six (data.drop 14) hd6
      rw [hdp] at h
      simp only at h
      split at h
      case isTrue => cases h
      case isFalse h0 =>
      split at h
      case isTrue => cases h
      case isFalse h255 =>
      split at h
      case isTrue => cases h
      case isFalse hrange =>
      cases hrec : rocheEntries hl io m s' with
      | none => rw [hrec] at h; cases h
      | some rest =>
        rw [hrec] at h
        simp only at h
        injection h with h
        subst h
        obtain ⟨ihlen, ihoff, ihpos⟩ := ih s' rest hrec
        have hx0 : x0 = 0 := not_not.mp h0
        have hx255 : x255 = 255 := not_not.mp h255
        have hrange' := not_not.mp hrange
        have hsd : s = data.take 14 ++ ([x0, o3, o2, o1, o0, x255] ++ s') := by
          have h1 : s = data ++ s' := by
            rw [hdata, hs', List.take_append_drop]
          rw [h1]
          conv_lhs => rw [← List.take_append_drop 14 data, hdp]
          rw [List.append_assoc]
        have hlen14 : (data.take 14).length = 14 := by
          rw [List.length_take]; omega
        refine ⟨by simp [ihlen], ?_, ?_⟩
        · intro e he
          rcases List.mem_cons.mp he with he | he
          · subst he
            exact hrange'
          · exact ihoff e he
        · intro i hi
          cases i with
          | zero =>
            simp only [Nat.mul_zero, Nat.zero_add]
            constructor
            · rw [hsd, List.getElem?_append_right (by omega)]
              rw [hlen14]
              simp [hx0]
            · rw [hsd, List.getElem?_append_right (by omega)]
              rw [hlen14]
              simp [hx255]
          | succ j =>
            have hj : j < m := by omega
            obtain ⟨hA, hB⟩ := ihpos j hj
            rw [hs'] at hA hB
            rw [List.getElem?_drop] at hA hB
            constructor
            · rw [show 20 * (j + 1) + 14 = 20 + (20 * j + 14) by ring]
              exact hA
            · rw [show 20 * (j + 1) + 19 = 20 + (20 * j + 19) by ring]
              exact hB

set_option maxRecDepth 16384 in
/-- Witness for claim C8 on the index-entry region of the concrete file
`exFile` (its Roche index data starts at byte 169, with `header_length` 40 and
`index_offset` 152). -/
theorem claim_C8_witness :
    rocheEntries 40 152 2 (exFile.drop 169) =
      some [([69, 88, 65, 77, 80, 76, 69, 48, 48, 48, 48, 48, 48, 49], 40),
            ([69, 88, 65, 77, 80, 76, 69, 48, 48, 48, 48, 48, 48, 50], 96)] ∧
    ([([69, 88, 65, 77, 80, 76, 69, 48, 48, 48, 48, 48, 48, 49], 40),
      ([69, 88, 65, 77, 80, 76, 69, 48, 48, 48, 48, 48, 48, 50], 96)] :
        List (List Nat × Nat)).length = 2 ∧
    (∀ e ∈ ([([69, 88, 65, 77, 80, 76, 69, 48, 48, 48, 48, 48, 48, 49], 40),
             ([69, 88, 65, 77, 80, 76, 69, 48, 48, 48, 48, 48, 48, 50], 96)] :
        List (List Nat × Nat)), 40 ≤ e.2 ∧ e.2 ≤ 152) ∧
    (∀ i, i < 2 → (exFile.drop 169)[20 * i + 14]? = some 0 ∧
      (exFile.drop 169)[20 * i + 19]? = some 255) :=
  ⟨by decide, claim_C8 40 152 2 (exFile.drop 169)
    [([69, 88, 65, 77, 80, 76, 69, 48, 48, 48, 48, 48, 48, 49], 40),
     ([69, 88, 65, 77, 80, 76, 69, 48, 48, 48, 48, 48, 48, 50], 96)]
    (by decide)⟩

theorem writeRecordsAux_none_of (fc ks : List Nat) (recs : List SeqRecord)
    (pos : Nat) (idx : Option (List (List Nat × Nat))) (body : List Nat)
    (idxF : Option (List (List Nat × Nat)))
    (h : writeRecordsAux fc ks pos idx recs = some (body, idxF)) :
    writeRecordsAux fc ks pos none recs = some (body, none) := by
  induction recs generalizing pos idx body idxF with
  | nil =>
    simp only [writeRecordsAux] at h
    injection h with h
    injection h with h1 h2
    subst h1
    simp only [writeRecordsAux]
  | cons r rs ih =>
    obtain ⟨bs, body', hw, hb, hrec⟩ :=
      writeRecordsAux_cons_inv _ _ _ _ _ _ _ _ h
    have ih' := ih (pos + bs.length) (idxUpdate r pos idx) body' idxF hrec
    simp only [writeRecordsAux, hw]
    have hnone : idxUpdate r pos (none : Option (List (List Nat × Nat))) =
        none := rfl
    rw [hnone, ih']
    rw [hb]

theorem idxUpdate_kill (r : SeqRecord) (pos : Nat)
    (idx : Option (List (List Nat × Nat))) (hlen : r.id.length ≠ 14) :
    idxUpdate r pos idx = none := by
  cases idx with
  | none => rfl
  | some es => simp [idxUpdate, hlen]

theorem writeRecordsAux_idx_kill (fc ks : List Nat) (recs : List SeqRecord)
    (pos : Nat) (idx : Option (List (List Nat × Nat))) (body : List Nat)
    (idxF : Option (List (List Nat × Nat))) (r : SeqRecord)
    (hr : r ∈ recs) (hlen : r.id.length ≠ 14)
    (h : writeRecordsAux fc ks pos idx recs = some (body, idxF)) :
    idxF = none := by
  induction recs generalizing pos idx body with
  | nil => cases hr
  | cons r0 rs ih =>
    obtain ⟨bs, body', hw, hb, hrec⟩ :=
      writeRecordsAux_cons_inv _ _ _ _ _ _ _ _ h
    rcases List.mem_cons.mp hr with he | he
    · subst he
      rw [idxUpdate_kill r pos idx hlen] at hrec
      exact writeRecordsAux_idx_none _ _ _ _ _ _ hrec
    · exact ih (pos + bs.length) (idxUpdate r0 pos idx) body' he hrec

/-- Claim C10: if the writer is asked to build an index but some record has a
name whose length is not 14, the index is silently dropped for the whole file:
`write_file` still succeeds, produces exactly the bytes it would produce with
the index disabled (no index block after the records), and the global header
keeps `index_offset = 0` and `index_length = 0`. -/
theorem claim_C10 (xml : List Nat) (records : List SeqRecord) (r : SeqRecord)
    (file : List Nat) (hr : r ∈ records) (hlen : r.id.length ≠ 14)
    (h : write_file true xml records = some file) :
    write_file false xml records = some file ∧
    ∃ hdr rest, sff_file_header file = some (hdr, rest) ∧
      hdr.indexOffset = 0 ∧ hdr.indexLength = 0 := by
  cases records with
  | nil => cases hr
  | cons r0 rest0 =>
    simp only [write_file] at h ⊢
    cases han0 : r0.annots with
    | none => rw [han0] at h; cases h
    | some an0 =>
      rw [han0] at h
      simp only at h ⊢
      cases hh0 : write_header 0 0 (r0 :: rest0).length an0.flowChars
          an0.flowKey with
      | none => rw [hh0] at h; cases h
      | some header0 =>
        rw [hh0] at h
        simp only at h ⊢
        simp only [if_true] at h
        cases hwr : writeRecordsAux an0.flowChars an0.flowKey header0.length
            (some []) (r0 :: rest0) with
        | none => rw [hwr] at h; cases h
        | some pr =>
          obtain ⟨body, idxF⟩ := pr
          rw [hwr] at h
          simp only at h
          have hkill : idxF = none :=
            writeRecordsAux_idx_kill _ _ _ _ _ _ _ _ hr hlen hwr
          subst hkill
          simp only at h
          injection h with h
          subst h
          constructor
          · rw [if_neg (by simp : ¬(false = true)),
              writeRecordsAux_none_of _ _ _ _ _ _ _ hwr]
          · refine ⟨_, body, read_of_write_header _ _ _ _ _ _ _ hh0
              (by omega), rfl, rfl⟩

set_option maxRecDepth 16384 in
/-- Witness for claim C10 on the concrete one-record file `c10File`, whose
record name has 13 bytes. -/
theorem claim_C10_witness :
    c10Record ∈ [c10Record] ∧ c10Record.id.length ≠ 14 ∧
    write_file true [88] [c10Record] = some c10File ∧
    (write_file false [88] [c10Record] = some c10File ∧
     ∃ hdr rest, sff_file_header c10File = some (hdr, rest) ∧
       hdr.indexOffset = 0 ∧ hdr.indexLength = 0) :=
  ⟨List.mem_cons_self c10Record [], by decide, rfl,
   claim_C10 [88] [c10Record] c10Record c10File
     (List.mem_cons_self c10Record []) (by decide) rfl⟩

/-- Claim C5 is a code bug: `_record_key` never raises on a duplicate key
(its docstring and the class docstring promise a ValueError, and line 72 of
_index.py carries the TODO admitting the check is missing).  Registering the
same key twice silently keeps the later offset: the store built from
`key -> 10` then `key -> 20` is exactly `[(key, 20)]`. -/
theorem claim_C5 :
    record_key none [107, 101, 121] 20
        (record_key none [107, 101, 121] 10 []) =
      [([107, 101, 121], 20)] ∧
    pyDictGet (record_key none [107, 101, 121] 20
        (record_key none [107, 101, 121] 10 [])) [107, 101, 121] =
      some 20 :=
  ⟨rfl, rfl⟩

/-- Claim C9 is a code bug: the boundary check of `FastqDict._build` (line
711 of _index.py) constructs `ValueError("Problem with line ...")` but never
raises it.  On `c9Lines`, whose fifth line "XGARBAGE" does not start with
"@", the build silently succeeds and records the bogus key "GARBAGE" (the
line minus its first character) at offset 15 instead of failing. -/
theorem claim_C9 :
    (∃ l, c9Lines[4]? = some l ∧ l.head? ≠ some 64) ∧
    fastqBuild c9Lines =
      some [([97], 0), ([71, 65, 82, 66, 65, 71, 69], 15)] :=
  ⟨⟨[88, 71, 65, 82, 66, 65, 71, 69, 10], rfl, by decide⟩, rfl⟩

end Biopython
